import Mathlib

/-!
Verification of the client-side sync engine of InkGoose.Desktop.

The definitions below are a shallow embedding of the TypeScript sources:
`src/unnamed/part_001` and `src/unnamed/part_002` (two revisions of
`SyncService`), `src/src/services/conflictResolver.ts` and
`src/src/services/cryptoService.ts`.  External collaborators (remote API,
file system, crypto, conflict dialog) are passed in as explicit function
parameters, and the effects the service performs on them (network calls,
file writes, metadata writes) are returned as explicit traces.
-/

namespace InkGoose

/-! ## Crypto: `CryptoService.generateContentHash`

The source computes a 32-bit JS rolling hash:
`hash = ((hash << 5) - hash) + charCodeAt(i); hash = hash & hash;`
and returns `Math.abs(hash).toString(16)`.  We embed the arithmetic on
`Int` with an explicit wrap into two's-complement 32-bit range.
(`charCodeAt` yields UTF-16 code units; for the ASCII inputs used in the
theorems below this agrees with Lean's `Char.toNat`.) -/

def toInt32 (n : Int) : Int := (n + 2 ^ 31) % 2 ^ 32 - 2 ^ 31

def jsHashStep (h : Int) (c : Nat) : Int :=
  toInt32 (toInt32 (h * 32) - h + c)

def jsHash (s : String) : Int :=
  s.data.foldl (fun h ch => jsHashStep h ch.toNat) 0

/-- `CryptoService.generateContentHash` : the absolute value rendered in
lowercase hexadecimal. -/
def generateContentHash (s : String) : String :=
  (Nat.toDigits 16 (jsHash s).natAbs).asString

/-! ## Data model (`syncAPI.ts`, `types`) -/

inductive SyncAction where
  | actNone
  | upload
  | download
  | conflict
deriving DecidableEq, Repr

/-- One entry of the remote check endpoint's response
(`FileSyncAction` in `syncAPI.ts`). -/
structure FileSyncActionR where
  relativePath : String
  action : SyncAction
  serverVersion : Nat
  fileId : Option String
deriving DecidableEq, Repr

/-- One action produced by `SyncService.checkSync`. -/
structure PlannedAction where
  path : String
  action : SyncAction
  serverVersion : Nat
  fileId : Option String
deriving DecidableEq, Repr

/-- `LocalFileInfo` : one tracked note, rebuilt by `getLocalFiles` on every
pass. -/
structure LocalFileInfo where
  path : String
  relativePath : String
  content : String
  contentHash : String
  version : Nat
deriving DecidableEq, Repr

/-- One persisted sync-metadata entry
(`{version, hash, lastSynced}` in `.ink-goose-sync.json`). -/
structure MetaEntry where
  version : Nat
  hash : String
  lastSynced : String
deriving DecidableEq, Repr

/-- The metadata map, keyed by vault-relative path.  The JS object is
embedded as an association list. -/
abbrev Metadata := List (String × MetaEntry)

/-- Generic association-list lookup (JS object / `Map` read). -/
def alookup {β : Type} (m : List (String × β)) (k : String) : Option β :=
  (m.find? (fun b => b.1 == k)).map (·.2)

/-- JS object assignment / `Map.set` : replace the existing binding, else
append. -/
def aset {β : Type} (m : List (String × β)) (k : String) (v : β) :
    List (String × β) :=
  if (m.find? (fun b => b.1 == k)).isSome then
    m.map (fun b => if b.1 == k then (b.1, v) else b)
  else
    m ++ [(k, v)]

def metaLookup (m : Metadata) (p : String) : Option MetaEntry :=
  alookup m p

def metaInsert (m : Metadata) (p : String) (e : MetaEntry) : Metadata :=
  aset m p e

/-! ## Reconciliation planner : `SyncService.checkSync`
(`part_001` lines 245-285, identical in `part_002` lines 256-296).

The local-file walk and the remote round trip are inputs; the embedded
function is the response-translation loop. -/

/-- The `response.actions.map(...)` loop of `checkSync`.  A `conflict`
action is rewritten to `upload` only when a matching local file is found;
otherwise the action (conflict included) passes through, with the
local absolute path substituted when available and non-empty
(`localFile?.path || action.relativePath` - JS `||` treats the empty
string as falsy). -/
def checkSyncActions (localFiles : List LocalFileInfo)
    (respActions : List FileSyncActionR) : List PlannedAction :=
  respActions.map fun action =>
    match localFiles.find? (fun f => f.relativePath == action.relativePath) with
    | some lf =>
        if action.action = SyncAction.conflict then
          { path := lf.path
            action := SyncAction.upload
            serverVersion := action.serverVersion
            fileId := action.fileId }
        else
          { path := if lf.path = "" then action.relativePath else lf.path
            action := action.action
            serverVersion := action.serverVersion
            fileId := action.fileId }
    | none =>
        { path := action.relativePath
          action := action.action
          serverVersion := action.serverVersion
          fileId := action.fileId }

/-- `checkSync` returns `{actions, conflicts: []}` : the conflicts list is
the constant empty list. -/
def checkSyncModel (localFiles : List LocalFileInfo)
    (respActions : List FileSyncActionR) :
    List PlannedAction × List String :=
  (checkSyncActions localFiles respActions, [])

/-! ## Remote API shapes (`syncAPI.ts`) -/

structure VersionConflictInfo where
  currentServerVersion : Nat
  attemptedVersion : Nat
  currentContentHash : String
  message : String
deriving DecidableEq, Repr

structure UploadRequest where
  relativePath : String
  version : Nat
  sizeBytes : Nat
  encryptedFileKey : String
  contentHash : String
deriving DecidableEq, Repr

structure UploadResponse where
  fileId : String
  version : Nat
  success : Bool
  conflict : Option VersionConflictInfo
deriving DecidableEq, Repr

structure FileVersionDto where
  fileId : String
  version : Nat
  encryptedContent : String
  encryptedFileKey : String
  contentHash : String
deriving DecidableEq, Repr

/-! ## Conflict-resolution coordinator (`conflictResolver.ts`)

The human decision (`ConflictResolutionChoice`). -/

inductive ChoiceType where
  | keepLocal
  | useServer
  | merge (mergedContent : String)
deriving DecidableEq, Repr

/-- Outcome of `ConflictResolver.handleUploadConflict` : the force-upload
network writes it performed and its returned `UploadResponse`
(`Except` models a thrown error). -/
structure ResolverOutcome where
  forceUploadCalls : List (UploadRequest × String)
  response : Except String UploadResponse
deriving Repr

/-- `ConflictResolver.executeResolution` (lines 147-190).
`keep-local` force-uploads the original payload at
`currentServerVersion + 1`; `use-server` performs no network write and
synthesizes `{fileId: '', version: currentServerVersion, success: true}`;
`merge` re-encrypts the merged text, recomputes its fingerprint, and
force-uploads at `currentServerVersion + 1`. -/
def executeResolutionModel
    (encrypt : String → String × String) (byteLen : String → Nat)
    (forceUpload : UploadRequest → String → UploadResponse)
    (uploadRequest : UploadRequest) (encryptedContent : String)
    (choice : ChoiceType) (conflict : VersionConflictInfo) :
    ResolverOutcome :=
  match choice with
  | ChoiceType.keepLocal =>
      let req := { uploadRequest with version := conflict.currentServerVersion + 1 }
      { forceUploadCalls := [(req, encryptedContent)]
        response := Except.ok (forceUpload req encryptedContent) }
  | ChoiceType.useServer =>
      { forceUploadCalls := []
        response := Except.ok
          { fileId := ""
            version := conflict.currentServerVersion
            success := true
            conflict := Option.none } }
  | ChoiceType.merge mergedContent =>
      let pair := encrypt mergedContent
      let mergedHash := generateContentHash mergedContent
      let req := { uploadRequest with
                    sizeBytes := byteLen pair.1
                    encryptedFileKey := pair.2
                    contentHash := mergedHash
                    version := conflict.currentServerVersion + 1 }
      { forceUploadCalls := [(req, pair.1)]
        response := Except.ok (forceUpload req pair.1) }

/-- `ConflictResolver.handleUploadConflict` (lines 15-48): fetch the
server's current version by path, decrypt both payloads, present the
dialog (whose answer is the `choice` parameter), then execute the
resolution.  `fetchByPath` and `decrypt` model the success paths of the
collaborators; a fetch/decrypt failure would abort the resolution with a
thrown error instead. -/
def handleUploadConflictModel
    (fetchByPath : String → Nat → FileVersionDto)
    (decrypt : String → String → String)
    (encrypt : String → String × String) (byteLen : String → Nat)
    (choice : ChoiceType)
    (forceUpload : UploadRequest → String → UploadResponse)
    (uploadRequest : UploadRequest) (encryptedContent : String)
    (conflict : VersionConflictInfo) : ResolverOutcome :=
  let serverFile := fetchByPath uploadRequest.relativePath conflict.currentServerVersion
  let _localContent := decrypt encryptedContent uploadRequest.encryptedFileKey
  let _serverContent := decrypt serverFile.encryptedContent serverFile.encryptedFileKey
  executeResolutionModel encrypt byteLen forceUpload uploadRequest encryptedContent
    choice conflict

/-! ## Upload execution : `SyncService.uploadFile`
(`part_001` lines 287-345, identical in `part_002` lines 298-356). -/

/-- The collaborators `uploadFile` consumes.  `server` is
`sync.uploadFile`; `resolver` is `conflictResolver.handleUploadConflict`;
`nowIso` is `new Date().toISOString()`. -/
structure UploadEnv where
  hasKey : Bool
  encrypt : String → String × String
  byteLen : String → Nat
  server : UploadRequest → String → UploadResponse
  resolver : UploadRequest → String → VersionConflictInfo → ResolverOutcome
  nowIso : String

/-- Every observable effect of one `uploadFile` call.  `noteWrites` are
`fileSystem.writeFile` calls to note files (`uploadFile` performs none);
`metaWrites` are the successive `writeSyncMetadata` payloads. -/
structure UploadFileTrace where
  uploadCalls : List (UploadRequest × String)
  forceUploadCalls : List (UploadRequest × String)
  noteWrites : List (String × String)
  metaWrites : List Metadata
  metadataFinal : Metadata
  result : Except String Unit
deriving Repr

/-- `uploadFile`, sequentially (the re-read of the metadata file after the
network call returns the same map in the single-operation model). -/
def uploadFileModel (env : UploadEnv) (metadata : Metadata)
    (localFile : LocalFileInfo) : UploadFileTrace :=
  if env.hasKey = false then
    { uploadCalls := [], forceUploadCalls := [], noteWrites := []
      metaWrites := [], metadataFinal := metadata
      result := Except.error "Encryption not available. Please log in to upload files." }
  else
    let pair := env.encrypt localFile.content
    let nextVersion :=
      match metaLookup metadata localFile.relativePath with
      | some m => m.version + 1
      | none => 1
    let req : UploadRequest :=
      { relativePath := localFile.relativePath
        version := nextVersion
        sizeBytes := env.byteLen pair.1
        encryptedFileKey := pair.2
        contentHash := localFile.contentHash }
    let resp := env.server req pair.1
    if resp.success then
      let meta' := metaInsert metadata localFile.relativePath
        { version := resp.version
          hash := localFile.contentHash
          lastSynced := env.nowIso }
      { uploadCalls := [(req, pair.1)], forceUploadCalls := []
        noteWrites := [], metaWrites := [meta'], metadataFinal := meta'
        result := Except.ok () }
    else
      match resp.conflict with
      | some conf =>
          let r := env.resolver req pair.1 conf
          match r.response with
          | Except.ok rr =>
              if rr.success then
                let meta' := metaInsert metadata localFile.relativePath
                  { version := rr.version
                    hash := localFile.contentHash
                    lastSynced := env.nowIso }
                { uploadCalls := [(req, pair.1)]
                  forceUploadCalls := r.forceUploadCalls
                  noteWrites := [], metaWrites := [meta']
                  metadataFinal := meta', result := Except.ok () }
              else
                { uploadCalls := [(req, pair.1)]
                  forceUploadCalls := r.forceUploadCalls
                  noteWrites := [], metaWrites := [], metadataFinal := metadata
                  result := Except.error "Failed to resolve conflict during upload" }
          | Except.error e =>
              { uploadCalls := [(req, pair.1)]
                forceUploadCalls := r.forceUploadCalls
                noteWrites := [], metaWrites := [], metadataFinal := metadata
                result := Except.error e }
      | none =>
          { uploadCalls := [(req, pair.1)], forceUploadCalls := []
            noteWrites := [], metaWrites := [], metadataFinal := metadata
            result := Except.error "Upload failed - server returned success: false" }

/-! ## Download execution : `SyncService.downloadFile`
(`part_001` lines 347-445, identical in `part_002` lines 358-456). -/

/-- Result of `conflictResolver.handleDownloadConflict`. -/
structure DownloadResolution where
  content : String
  encryptedContent : String
  shouldUpload : Bool
  uploadRequest : Option UploadRequest
deriving DecidableEq, Repr

/-- Collaborators consumed by one `downloadFile` call.
`localContent` is the `fileSystem.readFile(fullPath)` result (`none`
models the read throwing, e.g. file absent); `serverFile` is the
`sync.downloadFile` response; `decrypt` is
`cryptoService.prepareDownloadedFile` (success path); `resolution` is the
`handleDownloadConflict` outcome; `forceUploadResp` answers
`sync.forceUploadFile` in the resolved-upload tail. -/
structure DownloadEnv where
  localContent : Option String
  serverFile : FileVersionDto
  hasKey : Bool
  decrypt : String → String → String
  resolution : DownloadResolution
  forceUploadResp : UploadRequest → String → UploadResponse
  nowIso : String

/-- Observable effects of one `downloadFile` call.  `resolverInvoked`
records whether `handleDownloadConflict` was called; `downloadCalls`
counts direct `sync.downloadFile` fetches made by `downloadFile` itself. -/
structure DownloadTrace where
  resolverInvoked : Bool
  downloadCalls : Nat
  noteWrites : List (String × String)
  forceUploadCalls : List (UploadRequest × String)
  metadataFinal : Metadata
  result : Except String Unit
deriving Repr

def downloadFileModel (env : DownloadEnv) (metadata : Metadata)
    (vaultPath relativePath : String) (version : Option Nat) :
    DownloadTrace :=
  let fullPath := vaultPath ++ "/" ++ relativePath
  let fileMetadata := metaLookup metadata relativePath
  -- `if (lastSyncedHash && localHash !== lastSyncedHash)` : JS truthiness
  -- makes an empty stored hash skip the conflict check.
  let hasLocalConflict : Bool :=
    match env.localContent, fileMetadata with
    | some lc, some fm =>
        fm.hash != "" && generateContentHash lc != fm.hash
    | _, _ => false
  if hasLocalConflict then
    let resolution := env.resolution
    let contentHash := generateContentHash resolution.content
    let meta' := metaInsert metadata relativePath
      { version := version.getD 1
        hash := contentHash
        lastSynced := env.nowIso }
    match resolution.shouldUpload, resolution.uploadRequest with
    | true, some ur =>
        let req := { ur with version := version.getD 1 + 1 }
        let upResp := env.forceUploadResp req resolution.encryptedContent
        let meta'' :=
          if upResp.success then
            metaInsert meta' relativePath
              { version := upResp.version
                hash := contentHash
                lastSynced := env.nowIso }
          else meta'
        { resolverInvoked := true, downloadCalls := 0
          noteWrites := [(fullPath, resolution.content)]
          forceUploadCalls := [(req, resolution.encryptedContent)]
          metadataFinal := meta'', result := Except.ok () }
    | _, _ =>
        { resolverInvoked := true, downloadCalls := 0
          noteWrites := [(fullPath, resolution.content)]
          forceUploadCalls := []
          metadataFinal := meta', result := Except.ok () }
  else
    -- plain download: fetch happens before the master-key check
    if env.hasKey = false then
      { resolverInvoked := false, downloadCalls := 1
        noteWrites := [], forceUploadCalls := []
        metadataFinal := metadata
        result := Except.error "Encryption not available. Please log in to download files." }
    else
      let fv := env.serverFile
      let content := env.decrypt fv.encryptedContent fv.encryptedFileKey
      let meta' := metaInsert metadata relativePath
        { version := fv.version
          hash := fv.contentHash
          lastSynced := env.nowIso }
      { resolverInvoked := false, downloadCalls := 1
        noteWrites := [(fullPath, content)], forceUploadCalls := []
        metadataFinal := meta', result := Except.ok () }

/-! ## Bounded concurrent operation scheduler

Two revisions of the scheduler live in the repository:
`part_001` (callback accounting, version 1 below) and `part_002`
(promise handles awaited by `performBackgroundSync`, version 2 below).
Each is embedded as a small-step machine: a state, an action type
(one action per suspension-point-free block of the source), and a step
interpreter.  The environment (which operation settles, and whether its
attempt succeeded) is the action's choice, so invariants hold for every
interleaving the event loop could produce. -/

inductive OpKind where
  | upload
  | download
deriving DecidableEq, Repr

/-- `QueuedOperation` (the `data` payload does not influence scheduling
and is omitted). -/
structure Op where
  id : Nat
  kind : OpKind
  priority : Nat
  vaultId : String
  retries : Nat
  maxRetries : Nat
deriving DecidableEq, Repr

/-- `SyncProgress`. -/
structure Progress where
  total : Nat
  completed : Nat
  failed : Nat
  inProgress : Nat
  status : String
deriving DecidableEq, Repr

abbrev ProgressMap := List (String × Progress)

def progLookup (m : ProgressMap) (v : String) : Option Progress :=
  alookup m v

/-- `Map.set`. -/
def progSet (m : ProgressMap) (v : String) (p : Progress) : ProgressMap :=
  aset m v p

/-- The default used by `updateProgress` when no entry exists. -/
def idleProgress : Progress :=
  { total := 0, completed := 0, failed := 0, inProgress := 0, status := "idle" }

def getProgress (m : ProgressMap) (v : String) : Progress :=
  (progLookup m v).getD idleProgress

/-- Ghost attempt counters: number of times each operation id entered the
running state. -/
abbrev Attempts := List (Nat × Nat)

def getAttempts (l : Attempts) (id : Nat) : Nat :=
  (l.lookup id).getD 0

def bumpAttempts : Attempts → Nat → Attempts
  | [], id => [(id, 1)]
  | (k, n) :: rest, id =>
      if k = id then (k, n + 1) :: rest else (k, n) :: bumpAttempts rest id

/-- `operationQueue.sort((a, b) => b.priority - a.priority)` followed by
`shift()` : the first operation of maximal priority (JS engines sort
stably, so insertion order breaks ties). -/
def pickMax : List Op → Option (Op × List Op)
  | [] => Option.none
  | a :: q =>
      match pickMax q with
      | Option.none => some (a, q)
      | some (b, rest) =>
          if b.priority > a.priority then some (b, a :: rest) else some (a, q)

/-- The operations `performBackgroundSync` enqueues for its planned
actions: uploads at priority 2, downloads at priority 1, fresh ids,
`retries = 0`, `maxRetries = 3`. -/
def mkOps (firstId : Nat) (vaultId : String) : List OpKind → List Op
  | [] => []
  | k :: rest =>
      { id := firstId
        kind := k
        priority := match k with | OpKind.upload => 2 | OpKind.download => 1
        vaultId := vaultId
        retries := 0
        maxRetries := 3 } :: mkOps (firstId + 1) vaultId rest

/-- The operation `queueOperation` constructs. -/
def freshOp (nextId : Nat) (v : String) (k : OpKind) (prio : Nat) : Op :=
  { id := nextId, kind := k, priority := prio, vaultId := v
    retries := 0, maxRetries := 3 }

/-- Failure handling of `processOperation` when retries remain:
`retries++; priority = Math.max(0, priority - 1)` (`Nat` subtraction is
exactly the floor at 0). -/
def retriedOp (op : Op) : Op :=
  { op with retries := op.retries + 1, priority := op.priority - 1 }

/-! ### Version 1 (`part_001`): callback-based scheduler -/

/-- Scheduler state of `part_001`.  `active` is `activeOperations` (note
that the version-1 retry branch does not delete the id, faithfully
reproduced below); `running` is the ghost set of operations whose
`processOperation` call is currently executing; `dead` is the ghost set of
permanently failed ids; `attempts` are ghost start counters. -/
structure StateV1 where
  queue : List Op
  active : List Nat
  running : List Op
  dead : List Nat
  attempts : Attempts
  progress : ProgressMap
  nextId : Nat
deriving DecidableEq, Repr

def initV1 : StateV1 :=
  { queue := [], active := [], running := [], dead := []
    attempts := [], progress := [], nextId := 0 }

inductive ActV1 where
  | enqueue (vaultId : String) (kind : OpKind) (priority : Nat)
  | start
  | settle (id : Nat) (ok : Bool)
  | startPass (vaultId : String) (kinds : List OpKind)
deriving DecidableEq, Repr

/-- One step of the version-1 scheduler.

* `enqueue` : `queueOperation` — push and return immediately.
* `start` : one iteration of the `processQueue` loop (guard
  `activeOperations.size < MAX_CONCURRENT_OPERATIONS`, sort, shift, add
  to `activeOperations`, update `inProgress`, launch).
* `settle id ok` : the `processOperation` body for the chosen operation
  finishing its current attempt with outcome `ok` (lines 126-184).
* `startPass` : `performBackgroundSync` up to and including its final
  synchronous `updateProgress` (lines 447-504); starting the queued
  operations happens through subsequent `start` steps. -/
def stepV1 (s : StateV1) : ActV1 → Option StateV1
  | ActV1.enqueue v k prio =>
      some { s with queue := s.queue ++ [freshOp s.nextId v k prio]
                    nextId := s.nextId + 1 }
  | ActV1.start =>
      if s.active.length < 5 then
        match pickMax s.queue with
        | Option.none => Option.none
        | some (op, rest) =>
            let active' := if op.id ∈ s.active then s.active else op.id :: s.active
            some { s with
              queue := rest
              active := active'
              running := op :: s.running
              attempts := bumpAttempts s.attempts op.id
              progress := progSet s.progress op.vaultId
                { getProgress s.progress op.vaultId with inProgress := active'.length } }
      else Option.none
  | ActV1.settle id ok =>
      match s.running.find? (fun o => o.id == id) with
      | Option.none => Option.none
      | some op =>
          let running' := s.running.erase op
          if ok then
            -- success: delete from activeOperations, then completion check
            let active' := s.active.erase id
            let progress' :=
              match progLookup s.progress op.vaultId with
              | Option.none => s.progress
              | some p =>
                  let newCompleted := p.completed + 1
                  let newInProgress := active'.length
                  let isComplete : Bool :=
                    decide (newCompleted + p.failed ≥ p.total)
                      && decide (newInProgress = 0) && s.queue.isEmpty
                  progSet s.progress op.vaultId
                    { p with completed := newCompleted
                             inProgress := newInProgress
                             status := if isComplete then "completed" else p.status }
            some { s with running := running', active := active', progress := progress' }
          else if op.retries < op.maxRetries then
            -- retry: re-enqueue; version 1 does NOT remove the id from
            -- activeOperations here (faithful to the source)
            some { s with running := running'
                          queue := s.queue ++ [retriedOp op] }
          else
            -- permanent failure
            let active' := s.active.erase id
            let progress' :=
              match progLookup s.progress op.vaultId with
              | Option.none => s.progress
              | some p =>
                  let newFailed := p.failed + 1
                  let newInProgress := active'.length
                  let isComplete : Bool :=
                    decide (p.completed + newFailed ≥ p.total)
                      && decide (newInProgress = 0) && s.queue.isEmpty
                  progSet s.progress op.vaultId
                    { p with failed := newFailed
                             inProgress := newInProgress
                             status := if isComplete then "completed" else p.status }
            some { s with running := running', active := active'
                          dead := id :: s.dead, progress := progress' }
  | ActV1.startPass v kinds =>
      let queueF := s.queue.filter (fun o => o.vaultId != v)
      let ops := mkOps s.nextId v kinds
      let initProg : Progress :=
        { total := kinds.length, completed := 0, failed := 0, inProgress := 0
          status := if kinds.isEmpty then "completed" else "syncing" }
      let prog1 := progSet s.progress v initProg
      let prog2 :=
        if kinds.isEmpty then prog1
        else progSet prog1 v { initProg with status := "processing" }
      some { s with queue := queueF ++ ops
                    nextId := s.nextId + kinds.length
                    progress := prog2 }

def runV1 : StateV1 → List ActV1 → Option StateV1
  | s, [] => some s
  | s, a :: rest =>
      match stepV1 s a with
      | Option.none => Option.none
      | some s' => runV1 s' rest

/-! ### Version 2 (`part_002`): promise-handle scheduler

`queueOperation` returns a promise that resolves on terminal success and
rejects on permanent failure; `performBackgroundSync` collects these
handles and `await`s `Promise.allSettled` before marking the vault
completed.  A `Pass` records one `performBackgroundSync` invocation:
its vault, the ids of the operations it enqueued, and whether its
`allSettled` continuation has run (`done`). -/

structure Pass where
  vaultId : String
  opIds : List Nat
  done : Bool
deriving DecidableEq, Repr

/-- `handles` maps an operation id to the settled outcome of its enqueue
promise (`true` = resolved, `false` = rejected); an id absent from the
list is still pending.  In version 2 the `.finally` handler removes the
operation from `activeOperations` on every settle, so `running` is the
whole of `activeOperations`. -/
structure StateV2 where
  queue : List Op
  running : List Op
  handles : List (Nat × Bool)
  progress : ProgressMap
  passes : List Pass
  nextId : Nat
deriving DecidableEq, Repr

def initV2 : StateV2 :=
  { queue := [], running := [], handles := [], progress := []
    passes := [], nextId := 0 }

inductive ActV2 where
  | enqueue (vaultId : String) (kind : OpKind) (priority : Nat)
  | start
  | settle (id : Nat) (ok : Bool)
  | startPass (vaultId : String) (kinds : List OpKind)
  | finishPass (i : Nat)
deriving DecidableEq, Repr

/-- One step of the version-2 scheduler.

* `start` : one `runNext` iteration (`part_002` lines 103-130).
* `settle id ok` : `processOperation` (lines 131-162) plus the `.finally`
  bookkeeping; the promise settles only on a terminal outcome.
* `startPass` : `performBackgroundSync` (lines 458-516) up to the
  `Promise.allSettled` await; `finishPass i` is its continuation, enabled
  only once every handle of pass `i` has settled. -/
def stepV2 (s : StateV2) : ActV2 → Option StateV2
  | ActV2.enqueue v k prio =>
      some { s with queue := s.queue ++ [freshOp s.nextId v k prio]
                    nextId := s.nextId + 1 }
  | ActV2.start =>
      if s.running.length < 5 then
        match pickMax s.queue with
        | Option.none => Option.none
        | some (op, rest) =>
            let running' := op :: s.running
            some { s with
              queue := rest
              running := running'
              progress := progSet s.progress op.vaultId
                { getProgress s.progress op.vaultId with inProgress := running'.length } }
      else Option.none
  | ActV2.settle id ok =>
      match s.running.find? (fun o => o.id == id) with
      | Option.none => Option.none
      | some op =>
          let running' := s.running.erase op
          if ok then
            let p := getProgress s.progress op.vaultId
            some { s with running := running'
                          handles := (op.id, true) :: s.handles
                          progress := progSet s.progress op.vaultId
                            { p with completed := p.completed + 1
                                     inProgress := running'.length } }
          else if op.retries < op.maxRetries then
            some { s with running := running'
                          queue := s.queue ++ [retriedOp op]
                          progress := progSet s.progress op.vaultId
                            { getProgress s.progress op.vaultId with
                                inProgress := running'.length } }
          else
            let p := getProgress s.progress op.vaultId
            some { s with running := running'
                          handles := (op.id, false) :: s.handles
                          progress := progSet s.progress op.vaultId
                            { p with failed := p.failed + 1
                                     inProgress := running'.length } }
  | ActV2.startPass v kinds =>
      let queueF := s.queue.filter (fun o => o.vaultId != v)
      let ops := mkOps s.nextId v kinds
      let initProg : Progress :=
        { total := kinds.length, completed := 0, failed := 0, inProgress := 0
          status := if kinds.isEmpty then "completed" else "syncing" }
      some { s with queue := queueF ++ ops
                    nextId := s.nextId + kinds.length
                    progress := progSet s.progress v initProg
                    passes := s.passes ++
                      [{ vaultId := v, opIds := ops.map Op.id, done := kinds.isEmpty }] }
  | ActV2.finishPass i =>
      match s.passes.get? i with
      | Option.none => Option.none
      | some p =>
          if p.done then Option.none
          else if p.opIds.all (fun id => (s.handles.lookup id).isSome) then
            some { s with
              passes := s.passes.set i { p with done := true }
              progress := progSet s.progress p.vaultId
                { getProgress s.progress p.vaultId with
                    status := "completed", inProgress := 0 } }
          else Option.none

def runV2 : StateV2 → List ActV2 → Option StateV2
  | s, [] => some s
  | s, a :: rest =>
      match stepV2 s a with
      | Option.none => Option.none
      | some s' => runV2 s' rest

/-! ## Concrete instances used by counterexamples and witnesses -/

/-- The spec-claim's reading of the version to send: the last-known-synced
version of the path, defaulting to 1 when no metadata entry exists
("the last-known-synced version of a never-synced path defaulting to 1").
Used only to compare the spec's words against `uploadFileModel`. -/
def specLastKnownVersion (m : Metadata) (p : String) : Nat :=
  ((metaLookup m p).map MetaEntry.version).getD 1

/-- An upload environment whose server accepts every upload and echoes the
requested version. -/
def envEcho : UploadEnv :=
  { hasKey := true
    encrypt := fun c => (c, "key")
    byteLen := String.length
    server := fun req _ =>
      { fileId := "f", version := req.version, success := true
        conflict := Option.none }
    resolver := fun _ _ _ =>
      { forceUploadCalls := [], response := Except.error "unused" }
    nowIso := "2026-01-01T00:00:00.000Z" }

/-- An upload environment with no master key available. -/
def envNoKey : UploadEnv :=
  { hasKey := false
    encrypt := fun c => (c, "key")
    byteLen := String.length
    server := fun _ _ =>
      { fileId := "", version := 0, success := false, conflict := Option.none }
    resolver := fun _ _ _ =>
      { forceUploadCalls := [], response := Except.error "unused" }
    nowIso := "t" }

/-- A metadata map holding `notes/a.md` at version 2. -/
def meC5 : MetaEntry := { version := 2, hash := "h0", lastSynced := "t0" }

def metaC5 : Metadata := [("notes/a.md", meC5)]

/-- A never-synced local note. -/
def lfA : LocalFileInfo :=
  { path := "/v/notes/a.md", relativePath := "notes/a.md", content := "hello"
    contentHash := "abc123", version := 1 }

/-- `uploadFile`'s environment when every upload is answered with a version
conflict and the user resolves it with `use-server`. -/
def useServerEnv (fetch : String → Nat → FileVersionDto)
    (decrypt : String → String → String)
    (encrypt : String → String × String) (byteLen : String → Nat)
    (forceUpload : UploadRequest → String → UploadResponse)
    (server : UploadRequest → String → UploadResponse)
    (nowIso : String) : UploadEnv :=
  { hasKey := true
    encrypt := encrypt
    byteLen := byteLen
    server := server
    resolver := handleUploadConflictModel fetch decrypt encrypt byteLen
      ChoiceType.useServer forceUpload
    nowIso := nowIso }

/-- C2's trace: a pass with one upload is started for vault `v`, its
operation begins running, a second pass for `v` is started (with an empty
plan) while that operation is still in flight, and then the first-pass
operation completes. -/
def c2acts : List ActV1 :=
  [ActV1.startPass "v" [OpKind.upload],
   ActV1.start,
   ActV1.startPass "v" [],
   ActV1.settle 0 true]

def sC2 : StateV1 := (runV1 initV1 c2acts).getD initV1

/-- The state after C2's second `performBackgroundSync` but before the
first-pass operation settles. -/
def c2pre : StateV1 :=
  (runV1 initV1 [ActV1.startPass "v" [OpKind.upload], ActV1.start,
    ActV1.startPass "v" []]).getD initV1

/-- C3's trace: seven operations enqueued, five starts. -/
def c3acts : List ActV1 :=
  [ActV1.enqueue "v" OpKind.upload 2, ActV1.enqueue "v" OpKind.upload 2,
   ActV1.enqueue "v" OpKind.upload 2, ActV1.enqueue "v" OpKind.upload 2,
   ActV1.enqueue "v" OpKind.download 1, ActV1.enqueue "v" OpKind.download 1,
   ActV1.enqueue "v" OpKind.download 1,
   ActV1.start, ActV1.start, ActV1.start, ActV1.start, ActV1.start]

def sC3 : StateV1 := (runV1 initV1 c3acts).getD initV1

/-- C4's trace: one operation whose every attempt fails. -/
def c4acts : List ActV1 :=
  [ActV1.enqueue "v" OpKind.upload 2,
   ActV1.start, ActV1.settle 0 false,
   ActV1.start, ActV1.settle 0 false,
   ActV1.start, ActV1.settle 0 false,
   ActV1.start, ActV1.settle 0 false]

def sC4 : StateV1 := (runV1 initV1 c4acts).getD initV1

/-- C6's trace (version-2 machine): one pass with two uploads; the first
succeeds, the second fails all four attempts and is permanently failed, so
both enqueue handles are settled but the pass has not yet finished. -/
def c6acts : List ActV2 :=
  [ActV2.startPass "v" [OpKind.upload, OpKind.upload],
   ActV2.start, ActV2.start,
   ActV2.settle 0 true,
   ActV2.settle 1 false,
   ActV2.start, ActV2.settle 1 false,
   ActV2.start, ActV2.settle 1 false,
   ActV2.start, ActV2.settle 1 false]

def sC6 : StateV2 := (runV2 initV2 c6acts).getD initV2

def pC6 : Pass := sC6.passes.getD 0 { vaultId := "", opIds := [], done := true }

/-- C7's trace: one operation fails its first attempt (as an upload with no
master key does). -/
def c7acts : List ActV1 :=
  [ActV1.enqueue "v" OpKind.upload 2, ActV1.start, ActV1.settle 0 false]

def sC7 : StateV1 := (runV1 initV1 c7acts).getD initV1

/-- The state just before C7's failing settle: one operation enqueued and
started. -/
def c7pre : StateV1 :=
  (runV1 initV1 [ActV1.enqueue "v" OpKind.upload 2, ActV1.start]).getD initV1

/-- Metadata for C8: hash on record differs from the local fingerprint. -/
def meC8 : MetaEntry := { version := 3, hash := "deadbeef", lastSynced := "t0" }

def metaC8 : Metadata := [("a.md", meC8)]

/-- A download environment whose target's local file was edited since the
last sync (its fingerprint no longer matches the recorded hash). -/
def dlEnvC8 : DownloadEnv :=
  { localContent := some "x"
    serverFile :=
      { fileId := "f1", version := 4, encryptedContent := "enc"
        encryptedFileKey := "k", contentHash := "srvhash" }
    hasKey := true
    decrypt := fun c _ => c
    resolution :=
      { content := "resolved", encryptedContent := "encres"
        shouldUpload := false, uploadRequest := Option.none }
    forceUploadResp := fun _ _ =>
      { fileId := "", version := 0, success := false, conflict := Option.none }
    nowIso := "t1" }

/-- A download environment for a path with a local file but no metadata
entry. -/
def dlEnvC9 : DownloadEnv :=
  { localContent := some "anything at all"
    serverFile :=
      { fileId := "f2", version := 7, encryptedContent := "payload"
        encryptedFileKey := "fk", contentHash := "srvh7" }
    hasKey := true
    decrypt := fun c k => c ++ "|" ++ k
    resolution :=
      { content := "unused", encryptedContent := ""
        shouldUpload := false, uploadRequest := Option.none }
    forceUploadResp := fun _ _ =>
      { fileId := "", version := 0, success := false, conflict := Option.none }
    nowIso := "t2" }

/-- C10's concrete scenario pieces. -/
def fetchC10 : String → Nat → FileVersionDto := fun _ _ =>
  { fileId := "f3", version := 5, encryptedContent := "server text"
    encryptedFileKey := "sk", contentHash := "sh" }

def confC10 : VersionConflictInfo :=
  { currentServerVersion := 5, attemptedVersion := 3
    currentContentHash := "sh", message := "conflict" }

def lfC10 : LocalFileInfo :=
  { path := "/v/n.md", relativePath := "n.md", content := "local text"
    contentHash := generateContentHash "local text", version := 3 }

/-! ## Helper lemmas -/

theorem nodup_subset_length_le {l l' : List Nat} (hd : l.Nodup) (hs : l ⊆ l') :
    l.length ≤ l'.length := by
  calc l.length = l.toFinset.card := (List.toFinset_card_of_nodup hd).symm
    _ ≤ l'.toFinset.card := Finset.card_le_card (fun x hx => by
        simp only [List.mem_toFinset] at hx ⊢; exact hs hx)
    _ ≤ l'.length := List.toFinset_card_le l'

theorem nat_lookup_cons {β : Type} (j k : Nat) (n : β) (rest : List (Nat × β)) :
    List.lookup j ((k, n) :: rest) =
      if j = k then some n else List.lookup j rest := by
  simp only [List.lookup_cons]
  by_cases h : j = k
  · subst h; simp
  · have hb : (j == k) = false := by
      simp only [beq_eq_false_iff_ne, ne_eq]; exact h
    simp [hb, h]

theorem getAttempts_bump_self (l : Attempts) (id : Nat) :
    getAttempts (bumpAttempts l id) id = getAttempts l id + 1 := by
  induction l with
  | nil => simp [bumpAttempts, getAttempts, nat_lookup_cons]
  | cons kv rest ih =>
      obtain ⟨k, n⟩ := kv
      by_cases hk : k = id
      · subst hk
        simp [bumpAttempts, getAttempts, nat_lookup_cons]
      · have hik : ¬id = k := fun h => hk h.symm
        simp only [bumpAttempts, if_neg hk, getAttempts, nat_lookup_cons,
          if_neg hik]
        simpa [getAttempts] using ih

theorem getAttempts_bump_ne (l : Attempts) (id j : Nat) (hji : j ≠ id) :
    getAttempts (bumpAttempts l id) j = getAttempts l j := by
  induction l with
  | nil => simp [bumpAttempts, getAttempts, nat_lookup_cons, hji]
  | cons kv rest ih =>
      obtain ⟨k, n⟩ := kv
      by_cases hk : k = id
      · subst hk
        have hjk : ¬j = k := hji
        simp [bumpAttempts, getAttempts, nat_lookup_cons, hjk]
      · by_cases hjk : j = k
        · subst hjk
          simp [bumpAttempts, if_neg hk, getAttempts, nat_lookup_cons]
        · simp only [bumpAttempts, if_neg hk, getAttempts, nat_lookup_cons,
            if_neg hjk]
          simpa [getAttempts] using ih

theorem bump_keys {l : Attempts} {id : Nat} :
    ∀ kv ∈ bumpAttempts l id, kv.1 = id ∨ kv ∈ l := by
  induction l with
  | nil => intro kv hkv; simp [bumpAttempts] at hkv; subst hkv; exact Or.inl rfl
  | cons hd rest ih =>
      obtain ⟨k, n⟩ := hd
      intro kv hkv
      by_cases hk : k = id
      · simp only [bumpAttempts, if_pos hk] at hkv
        rcases List.mem_cons.mp hkv with h | h
        · subst h; exact Or.inl hk
        · exact Or.inr (List.mem_cons_of_mem _ h)
      · simp only [bumpAttempts, if_neg hk] at hkv
        rcases List.mem_cons.mp hkv with h | h
        · subst h; exact Or.inr (List.mem_cons_self _ _)
        · rcases ih kv h with h' | h'
          · exact Or.inl h'
          · exact Or.inr (List.mem_cons_of_mem _ h')

theorem lookup_eq_none_of_keys_lt {β : Type} {n : Nat} {j : Nat} (hj : n ≤ j) :
    ∀ {l : List (Nat × β)}, (∀ kv ∈ l, kv.1 < n) → l.lookup j = Option.none := by
  intro l
  induction l with
  | nil => intro _; rfl
  | cons hd rest ih =>
      obtain ⟨k, v⟩ := hd
      intro h
      have hk : k < n := h (k, v) (List.mem_cons_self _ _)
      have hjk : ¬j = k := by omega
      rw [nat_lookup_cons, if_neg hjk]
      exact ih (fun kv hkv => h kv (List.mem_cons_of_mem _ hkv))

theorem getAttempts_eq_zero_of_keys_lt {l : Attempts} {n : Nat}
    (h : ∀ kv ∈ l, kv.1 < n) {j : Nat} (hj : n ≤ j) :
    getAttempts l j = 0 := by
  unfold getAttempts
  rw [lookup_eq_none_of_keys_lt hj h]
  rfl

theorem pickMax_perm :
    ∀ {q : List Op} {op : Op} {rest : List Op},
      pickMax q = some (op, rest) → q.Perm (op :: rest) := by
  intro q
  induction q with
  | nil => intro op rest h; simp [pickMax] at h
  | cons a q ih =>
      intro op rest h
      rw [pickMax] at h
      cases hq : pickMax q with
      | none =>
          rw [hq] at h
          simp only at h
          injection h with h'
          injection h' with h1 h2
          subst h1; subst h2
          exact List.Perm.refl _
      | some val =>
          obtain ⟨b, rest'⟩ := val
          rw [hq] at h
          simp only at h
          by_cases hp : b.priority > a.priority
          · rw [if_pos hp] at h
            injection h with h'
            injection h' with h1 h2
            subst h1; subst h2
            exact List.Perm.trans (List.Perm.cons a (ih hq))
              (List.Perm.swap b a rest')
          · rw [if_neg hp] at h
            injection h with h'
            injection h' with h1 h2
            subst h1; subst h2
            exact List.Perm.refl _

theorem mkOps_ids (v : String) :
    ∀ (ks : List OpKind) (n : Nat), (mkOps n v ks).map Op.id = List.range' n ks.length := by
  intro ks
  induction ks with
  | nil => intro n; rfl
  | cons k rest ih =>
      intro n
      simp only [mkOps, List.map_cons, List.length_cons, List.range'_succ]
      rw [ih (n + 1)]

theorem mkOps_fields (v : String) :
    ∀ (ks : List OpKind) (n : Nat), ∀ op ∈ mkOps n v ks,
      op.retries = 0 ∧ op.maxRetries = 3 ∧ n ≤ op.id ∧ op.id < n + ks.length
        ∧ op.vaultId = v := by
  intro ks
  induction ks with
  | nil => intro n op h; simp [mkOps] at h
  | cons k rest ih =>
      intro n op h
      simp only [mkOps, List.mem_cons] at h
      rcases h with h | h
      · subst h
        refine ⟨rfl, rfl, Nat.le_refl _, ?_, rfl⟩
        simp only [List.length_cons]
        omega
      · obtain ⟨h1, h2, h3, h4, h5⟩ := ih (n + 1) op h
        refine ⟨h1, h2, by omega, ?_, h5⟩
        simp only [List.length_cons]
        omega

theorem alookup_map_set {β : Type} (k : String) (v : β) :
    ∀ {m : List (String × β)}, (m.find? (fun b => b.1 == k)).isSome = true →
      alookup (m.map (fun b => if b.1 == k then (b.1, v) else b)) k = some v := by
  intro m
  induction m with
  | nil => intro h; simp [List.find?] at h
  | cons hd rest ih =>
      obtain ⟨a, b⟩ := hd
      intro h
      by_cases hk : a = k
      · subst hk
        simp only [List.map_cons]
        rw [show ((a, b).1 == a) = true from by simp]
        unfold alookup
        rw [List.find?_cons_of_pos]
        · rfl
        · simp
      · have hkb : (a == k) = false := by
          simp only [beq_eq_false_iff_ne, ne_eq]; exact hk
        have h' : (rest.find? (fun b => b.1 == k)).isSome = true := by
          simpa [List.find?_cons, hkb] using h
        simp only [List.map_cons]
        rw [show (if (a, b).1 == k then ((a, b).1, v) else (a, b)) = (a, b) from by
          simp [hkb]]
        unfold alookup
        rw [List.find?_cons_of_neg]
        · exact ih h'
        · simp [hkb]

theorem alookup_aset_self {β : Type} (m : List (String × β)) (k : String) (v : β) :
    alookup (aset m k v) k = some v := by
  unfold aset
  by_cases h : (m.find? (fun b => b.1 == k)).isSome = true
  · rw [if_pos h]
    exact alookup_map_set k v h
  · rw [if_neg h]
    have hn : m.find? (fun b => b.1 == k) = Option.none := by
      cases hf : m.find? (fun b => b.1 == k)
      · rfl
      · rw [hf] at h; simp at h
    unfold alookup
    rw [List.find?_append, hn]
    simp [List.find?]

theorem metaLookup_insert_self (m : Metadata) (p : String) (e : MetaEntry) :
    metaLookup (metaInsert m p e) p = some e :=
  alookup_aset_self m p e

theorem lookup_isSome_cons {hs : List (Nat × Bool)} {k : Nat} {b : Bool} {id : Nat}
    (h : (hs.lookup id).isSome = true) :
    (((k, b) :: hs).lookup id).isSome = true := by
  simp only [List.lookup_cons]
  cases hbe : id == k
  · exact h
  · rfl

theorem find?_op_mem {l : List Op} {id : Nat} {op : Op}
    (h : l.find? (fun o => o.id == id) = some op) : op ∈ l :=
  List.mem_of_find?_eq_some h

theorem find?_op_id {l : List Op} {id : Nat} {op : Op}
    (h : l.find? (fun o => o.id == id) = some op) : op.id = id := by
  have := List.find?_some h
  simpa [beq_iff_eq] using this

/-! ## Version-1 scheduler invariant

The inductive invariant of the `part_001` machine: bounded ids,
well-formed ghost attempt counters, the 5-slot bound on
`activeOperations`, retry-count bounds, and the facts that a permanently
failed id was attempted exactly 4 times and never reappears. -/

structure InvV1 (s : StateV1) : Prop where
  ids_lt : ∀ op ∈ s.queue ++ s.running, op.id < s.nextId
  att_keys_lt : ∀ kv ∈ s.attempts, kv.1 < s.nextId
  dead_lt : ∀ id ∈ s.dead, id < s.nextId
  nodup : ((s.queue ++ s.running).map Op.id).Nodup
  run_sub : ∀ op ∈ s.running, op.id ∈ s.active
  cap : s.active.length ≤ 5
  maxR : ∀ op ∈ s.queue ++ s.running, op.maxRetries = 3
  retr_q : ∀ op ∈ s.queue, op.retries ≤ 3 ∧ getAttempts s.attempts op.id = op.retries
  retr_r : ∀ op ∈ s.running, op.retries ≤ 3 ∧ getAttempts s.attempts op.id = op.retries + 1
  att_le : ∀ id, getAttempts s.attempts id ≤ 4
  dead_att : ∀ id ∈ s.dead, getAttempts s.attempts id = 4
  dead_gone : ∀ id ∈ s.dead, ∀ op ∈ s.queue ++ s.running, op.id ≠ id

theorem invV1_init : InvV1 initV1 := by
  constructor <;> simp [initV1, getAttempts]

theorem invV1_enqueue {s : StateV1} (h : InvV1 s) (v : String) (k : OpKind)
    (prio : Nat) :
    InvV1 { s with queue := s.queue ++ [freshOp s.nextId v k prio]
                   nextId := s.nextId + 1 } := by
  have hperm : ((s.queue ++ [freshOp s.nextId v k prio]) ++ s.running).Perm
      (freshOp s.nextId v k prio :: (s.queue ++ s.running)) := by
    rw [List.append_assoc]
    exact List.perm_middle
  constructor <;> dsimp only
  · intro op hop
    rcases List.mem_cons.mp ((hperm.mem_iff).mp hop) with h1 | h1
    · subst h1; exact Nat.lt_succ_self _
    · exact Nat.lt_succ_of_lt (h.ids_lt op h1)
  · intro kv hkv
    exact Nat.lt_succ_of_lt (h.att_keys_lt kv hkv)
  · intro id hid
    exact Nat.lt_succ_of_lt (h.dead_lt id hid)
  · refine (hperm.map Op.id).symm.nodup ?_
    rw [List.map_cons]
    refine List.nodup_cons.mpr ⟨?_, h.nodup⟩
    intro hmem
    rcases List.mem_map.mp hmem with ⟨op, hop, hopid⟩
    have := h.ids_lt op hop
    simp only [freshOp] at hopid
    omega
  · exact h.run_sub
  · exact h.cap
  · intro op hop
    rcases List.mem_cons.mp ((hperm.mem_iff).mp hop) with h1 | h1
    · subst h1; rfl
    · exact h.maxR op h1
  · intro op hop
    rcases List.mem_append.mp hop with h1 | h1
    · exact h.retr_q op h1
    · have he : op = freshOp s.nextId v k prio := by simpa using h1
      subst he
      refine ⟨by simp [freshOp], ?_⟩
      simp only [freshOp]
      exact getAttempts_eq_zero_of_keys_lt h.att_keys_lt (Nat.le_refl _)
  · exact h.retr_r
  · exact h.att_le
  · exact h.dead_att
  · intro id hid op hop
    rcases List.mem_cons.mp ((hperm.mem_iff).mp hop) with h1 | h1
    · subst h1
      have := h.dead_lt id hid
      simp only [freshOp]
      omega
    · exact h.dead_gone id hid op h1

theorem invV1_startPass {s : StateV1} (h : InvV1 s) (v : String)
    (kinds : List OpKind) (p : ProgressMap) :
    InvV1 { s with queue := s.queue.filter (fun o => o.vaultId != v) ++ mkOps s.nextId v kinds
                   nextId := s.nextId + kinds.length
                   progress := p } := by
  set queueF := s.queue.filter (fun o => o.vaultId != v) with hqf
  set ops := mkOps s.nextId v kinds with hops
  have hsubF : ∀ op ∈ queueF, op ∈ s.queue := by
    intro op hop
    exact List.mem_of_mem_filter hop
  have hopsF := mkOps_fields v kinds s.nextId
  constructor <;> dsimp only
  · intro op hop
    rcases List.mem_append.mp hop with h1 | h1
    · rcases List.mem_append.mp h1 with h2 | h2
      · have := h.ids_lt op (List.mem_append.mpr (Or.inl (hsubF op h2)))
        omega
      · exact (hopsF op h2).2.2.2.1
    · have := h.ids_lt op (List.mem_append.mpr (Or.inr h1))
      omega
  · intro kv hkv
    have := h.att_keys_lt kv hkv
    omega
  · intro id hid
    have := h.dead_lt id hid
    omega
  · rw [List.map_append, List.map_append]
    have hQndp : (s.queue.map Op.id).Nodup ∧ (s.running.map Op.id).Nodup ∧
        (s.queue.map Op.id).Disjoint (s.running.map Op.id) := by
      have := h.nodup
      rw [List.map_append] at this
      exact List.nodup_append.mp this
    have hFndp : (queueF.map Op.id).Nodup :=
      ((List.filter_sublist s.queue).map Op.id).nodup hQndp.1
    have hOndp : (ops.map Op.id).Nodup := by
      rw [hops, mkOps_ids]
      exact List.nodup_range' _ _
    have hRndp : (s.running.map Op.id).Nodup := hQndp.2.1
    have hFmem : ∀ x ∈ queueF.map Op.id, x < s.nextId := by
      intro x hx
      rcases List.mem_map.mp hx with ⟨op, hop, rfl⟩
      exact h.ids_lt op (List.mem_append.mpr (Or.inl (hsubF op hop)))
    have hOmem : ∀ x ∈ ops.map Op.id, s.nextId ≤ x := by
      intro x hx
      rcases List.mem_map.mp hx with ⟨op, hop, rfl⟩
      exact (hopsF op hop).2.2.1
    have hRmem : ∀ x ∈ s.running.map Op.id, x < s.nextId := by
      intro x hx
      rcases List.mem_map.mp hx with ⟨op, hop, rfl⟩
      exact h.ids_lt op (List.mem_append.mpr (Or.inr hop))
    rw [List.append_assoc]
    refine List.nodup_append.mpr ⟨hFndp, ?_, ?_⟩
    · refine List.nodup_append.mpr ⟨hOndp, hRndp, ?_⟩
      intro x hxo hxr
      have := hOmem x hxo
      have := hRmem x hxr
      omega
    · intro x hxf hx
      rcases List.mem_append.mp hx with h2 | h2
      · have := hFmem x hxf
        have := hOmem x h2
        omega
      · -- x in filtered queue ids and in running ids: contradicts old disjointness
        have hxq : x ∈ s.queue.map Op.id := by
          rcases List.mem_map.mp hxf with ⟨op, hop, rfl⟩
          exact List.mem_map.mpr ⟨op, hsubF op hop, rfl⟩
        exact hQndp.2.2 hxq h2
  · exact h.run_sub
  · exact h.cap
  · intro op hop
    rcases List.mem_append.mp hop with h1 | h1
    · rcases List.mem_append.mp h1 with h2 | h2
      · exact h.maxR op (List.mem_append.mpr (Or.inl (hsubF op h2)))
      · exact (hopsF op h2).2.1
    · exact h.maxR op (List.mem_append.mpr (Or.inr h1))
  · intro op hop
    rcases List.mem_append.mp hop with h1 | h1
    · exact h.retr_q op (hsubF op h1)
    · obtain ⟨hr0, _, hle, _, _⟩ := hopsF op h1
      refine ⟨by omega, ?_⟩
      rw [hr0]
      exact getAttempts_eq_zero_of_keys_lt h.att_keys_lt hle
  · exact h.retr_r
  · exact h.att_le
  · exact h.dead_att
  · intro id hid op hop
    rcases List.mem_append.mp hop with h1 | h1
    · rcases List.mem_append.mp h1 with h2 | h2
      · exact h.dead_gone id hid op (List.mem_append.mpr (Or.inl (hsubF op h2)))
      · have h3 := (hopsF op h2).2.2.1
        have := h.dead_lt id hid
        omega
    · exact h.dead_gone id hid op (List.mem_append.mpr (Or.inr h1))

/-- Facts about removing a running operation, shared by the three settle
branches. -/
theorem settle_facts {s : StateV1} (h : InvV1 s) {op : Op}
    (hmem : op ∈ s.running) :
    (∀ x ∈ s.running.erase op, x ∈ s.running ∧ x.id ≠ op.id)
    ∧ (∀ x ∈ s.queue, x.id ≠ op.id)
    ∧ ((s.queue ++ s.running.erase op).map Op.id).Nodup
    ∧ (s.running.map Op.id).Perm (op.id :: (s.running.erase op).map Op.id) := by
  have hnd : ((s.queue.map Op.id) ++ (s.running.map Op.id)).Nodup := by
    have := h.nodup
    rwa [List.map_append] at this
  obtain ⟨hqnd, hrnd, hdisj⟩ := List.nodup_append.mp hnd
  have hrele : s.running.Nodup := List.Nodup.of_map Op.id hrnd
  have hxfact : ∀ x ∈ s.running.erase op, x ∈ s.running ∧ x.id ≠ op.id := by
    intro x hx
    have hx' := (hrele.mem_erase_iff).mp hx
    refine ⟨hx'.2, fun hid => hx'.1 ?_⟩
    exact List.inj_on_of_nodup_map hrnd hx'.2 hmem hid
  have hqfact : ∀ x ∈ s.queue, x.id ≠ op.id := by
    intro x hx hxe
    exact hdisj (List.mem_map.mpr ⟨x, hx, rfl⟩)
      (hxe ▸ List.mem_map.mpr ⟨op, hmem, rfl⟩)
  have hperm : (s.running.map Op.id).Perm
      (op.id :: (s.running.erase op).map Op.id) :=
    (List.perm_cons_erase hmem).map Op.id
  refine ⟨hxfact, hqfact, ?_, hperm⟩
  rw [List.map_append]
  refine List.nodup_append.mpr
    ⟨hqnd, ((List.erase_sublist op s.running).map Op.id).nodup hrnd, ?_⟩
  intro x hxq hxe
  rcases List.mem_map.mp hxe with ⟨y, hy, rfl⟩
  exact hdisj hxq (List.mem_map.mpr ⟨y, (hxfact y hy).1, rfl⟩)

theorem invV1_settle_success {s : StateV1} (h : InvV1 s) {op : Op}
    (hmem : op ∈ s.running) (p : ProgressMap) :
    InvV1 { s with running := s.running.erase op
                   active := s.active.erase op.id
                   progress := p } := by
  obtain ⟨hxfact, hqfact, hnd, hperm⟩ := settle_facts h hmem
  constructor <;> dsimp only
  · intro x hx
    rcases List.mem_append.mp hx with h1 | h1
    · exact h.ids_lt x (List.mem_append.mpr (Or.inl h1))
    · exact h.ids_lt x (List.mem_append.mpr (Or.inr (hxfact x h1).1))
  · exact h.att_keys_lt
  · exact h.dead_lt
  · exact hnd
  · intro x hx
    obtain ⟨hx1, hx2⟩ := hxfact x hx
    exact (List.mem_erase_of_ne hx2).mpr (h.run_sub x hx1)
  · exact Nat.le_trans (List.erase_sublist _ _).length_le h.cap
  · intro x hx
    rcases List.mem_append.mp hx with h1 | h1
    · exact h.maxR x (List.mem_append.mpr (Or.inl h1))
    · exact h.maxR x (List.mem_append.mpr (Or.inr (hxfact x h1).1))
  · exact h.retr_q
  · intro x hx
    exact h.retr_r x (hxfact x hx).1
  · exact h.att_le
  · exact h.dead_att
  · intro id hid x hx
    rcases List.mem_append.mp hx with h1 | h1
    · exact h.dead_gone id hid x (List.mem_append.mpr (Or.inl h1))
    · exact h.dead_gone id hid x (List.mem_append.mpr (Or.inr (hxfact x h1).1))

theorem invV1_settle_retry {s : StateV1} (h : InvV1 s) {op : Op}
    (hmem : op ∈ s.running) (hr : op.retries < op.maxRetries) :
    InvV1 { s with running := s.running.erase op
                   queue := s.queue ++ [retriedOp op] } := by
  obtain ⟨hxfact, hqfact, hnd, hperm⟩ := settle_facts h hmem
  have hmax3 : op.maxRetries = 3 := h.maxR op (List.mem_append.mpr (Or.inr hmem))
  have hretr : op.retries ≤ 3 ∧ getAttempts s.attempts op.id = op.retries + 1 :=
    h.retr_r op hmem
  have hpermNew :
      (((s.queue ++ [retriedOp op]) ++ s.running.erase op).map Op.id).Perm
        ((s.queue ++ s.running.erase op).map Op.id ++ [op.id]) := by
    rw [List.append_assoc, List.map_append, List.map_append, List.map_append,
      List.append_assoc]
    refine List.Perm.append_left _ ?_
    rw [List.map_cons, List.map_nil]
    exact List.perm_append_comm
  constructor <;> dsimp only
  · intro x hx
    rcases List.mem_append.mp hx with h1 | h1
    · rcases List.mem_append.mp h1 with h2 | h2
      · exact h.ids_lt x (List.mem_append.mpr (Or.inl h2))
      · have he : x = retriedOp op := by simpa using h2
        subst he
        exact h.ids_lt op (List.mem_append.mpr (Or.inr hmem))
    · exact h.ids_lt x (List.mem_append.mpr (Or.inr (hxfact x h1).1))
  · exact h.att_keys_lt
  · exact h.dead_lt
  · refine hpermNew.symm.nodup ?_
    refine List.nodup_append.mpr ⟨hnd, List.nodup_singleton _, ?_⟩
    intro x hx hxs
    have hxid : x = op.id := by simpa using hxs
    subst hxid
    rw [List.map_append] at hx
    rcases List.mem_append.mp hx with h1 | h1
    · rcases List.mem_map.mp h1 with ⟨y, hy, hyid⟩
      exact hqfact y hy hyid
    · rcases List.mem_map.mp h1 with ⟨y, hy, hyid⟩
      exact (hxfact y hy).2 hyid
  · intro x hx
    exact h.run_sub x (hxfact x hx).1
  · exact h.cap
  · intro x hx
    rcases List.mem_append.mp hx with h1 | h1
    · rcases List.mem_append.mp h1 with h2 | h2
      · exact h.maxR x (List.mem_append.mpr (Or.inl h2))
      · have he : x = retriedOp op := by simpa using h2
        subst he
        exact hmax3
    · exact h.maxR x (List.mem_append.mpr (Or.inr (hxfact x h1).1))
  · intro x hx
    rcases List.mem_append.mp hx with h1 | h1
    · exact h.retr_q x h1
    · have he : x = retriedOp op := by simpa using h1
      subst he
      refine ⟨by simp only [retriedOp]; omega, ?_⟩
      simp only [retriedOp]
      exact hretr.2
  · intro x hx
    exact h.retr_r x (hxfact x hx).1
  · exact h.att_le
  · exact h.dead_att
  · intro id hid x hx
    rcases List.mem_append.mp hx with h1 | h1
    · rcases List.mem_append.mp h1 with h2 | h2
      · exact h.dead_gone id hid x (List.mem_append.mpr (Or.inl h2))
      · have he : x = retriedOp op := by simpa using h2
        subst he
        exact h.dead_gone id hid op (List.mem_append.mpr (Or.inr hmem))
    · exact h.dead_gone id hid x (List.mem_append.mpr (Or.inr (hxfact x h1).1))

theorem invV1_settle_fail {s : StateV1} (h : InvV1 s) {op : Op}
    (hmem : op ∈ s.running) (hr : ¬op.retries < op.maxRetries)
    (p : ProgressMap) :
    InvV1 { s with running := s.running.erase op
                   active := s.active.erase op.id
                   dead := op.id :: s.dead
                   progress := p } := by
  obtain ⟨hxfact, hqfact, hnd, hperm⟩ := settle_facts h hmem
  have hmax3 : op.maxRetries = 3 := h.maxR op (List.mem_append.mpr (Or.inr hmem))
  have hretr := h.retr_r op hmem
  have hr3 : op.retries = 3 := by omega
  constructor <;> dsimp only
  · intro x hx
    rcases List.mem_append.mp hx with h1 | h1
    · exact h.ids_lt x (List.mem_append.mpr (Or.inl h1))
    · exact h.ids_lt x (List.mem_append.mpr (Or.inr (hxfact x h1).1))
  · exact h.att_keys_lt
  · intro id hid
    rcases List.mem_cons.mp hid with h1 | h1
    · subst h1
      exact h.ids_lt op (List.mem_append.mpr (Or.inr hmem))
    · exact h.dead_lt id h1
  · exact hnd
  · intro x hx
    obtain ⟨hx1, hx2⟩ := hxfact x hx
    exact (List.mem_erase_of_ne hx2).mpr (h.run_sub x hx1)
  · exact Nat.le_trans (List.erase_sublist _ _).length_le h.cap
  · intro x hx
    rcases List.mem_append.mp hx with h1 | h1
    · exact h.maxR x (List.mem_append.mpr (Or.inl h1))
    · exact h.maxR x (List.mem_append.mpr (Or.inr (hxfact x h1).1))
  · exact h.retr_q
  · intro x hx
    exact h.retr_r x (hxfact x hx).1
  · exact h.att_le
  · intro id hid
    rcases List.mem_cons.mp hid with h1 | h1
    · subst h1
      rw [hretr.2, hr3]
    · exact h.dead_att id h1
  · intro id hid x hx
    have hxin : x ∈ s.queue ++ s.running.erase op := hx
    rcases List.mem_cons.mp hid with h1 | h1
    · subst h1
      rcases List.mem_append.mp hxin with h2 | h2
      · exact hqfact x h2
      · exact (hxfact x h2).2
    · rcases List.mem_append.mp hxin with h2 | h2
      · exact h.dead_gone id h1 x (List.mem_append.mpr (Or.inl h2))
      · exact h.dead_gone id h1 x (List.mem_append.mpr (Or.inr (hxfact x h2).1))

theorem invV1_start {s : StateV1} (h : InvV1 s) {op : Op} {rest : List Op}
    (hq : pickMax s.queue = some (op, rest))
    (hlt : s.active.length < 5) (p : ProgressMap) :
    InvV1 { s with
      queue := rest
      active := if op.id ∈ s.active then s.active else op.id :: s.active
      running := op :: s.running
      attempts := bumpAttempts s.attempts op.id
      progress := p } := by
  have hqperm : s.queue.Perm (op :: rest) := pickMax_perm hq
  have hmemq : op ∈ s.queue := hqperm.mem_iff.mpr (List.mem_cons_self _ _)
  have hrest : ∀ x ∈ rest, x ∈ s.queue := fun x hx =>
    hqperm.mem_iff.mpr (List.mem_cons_of_mem _ hx)
  -- ids of the new combined list are a permutation of the old ones
  have hcomb : (rest ++ op :: s.running).Perm (s.queue ++ s.running) :=
    List.Perm.trans List.perm_middle (hqperm.append_right s.running).symm
  have hnd : ((rest ++ op :: s.running).map Op.id).Nodup :=
    ((hcomb.map Op.id).symm).nodup h.nodup
  -- op.id is distinct from every id left in the queue or already running
  have hop_fresh : ∀ x, x ∈ rest ∨ x ∈ s.running → x.id ≠ op.id := by
    intro x hx
    have hx' : x ∈ rest ++ op :: s.running := by
      rcases hx with h1 | h1
      · exact List.mem_append.mpr (Or.inl h1)
      · exact List.mem_append.mpr (Or.inr (List.mem_cons_of_mem _ h1))
    have hperm2 : (rest ++ op :: s.running).Perm (op :: (rest ++ s.running)) :=
      List.perm_middle
    have hnd2 : ((op :: (rest ++ s.running)).map Op.id).Nodup :=
      (hperm2.map Op.id).nodup hnd
    rw [List.map_cons] at hnd2
    have hnotin := (List.nodup_cons.mp hnd2).1
    intro hid
    rcases hx with h1 | h1
    · exact hnotin (hid ▸ List.mem_map.mpr
        ⟨x, List.mem_append.mpr (Or.inl h1), rfl⟩)
    · exact hnotin (hid ▸ List.mem_map.mpr
        ⟨x, List.mem_append.mpr (Or.inr h1), rfl⟩)
  have hopretr : op.retries ≤ 3 ∧ getAttempts s.attempts op.id = op.retries :=
    h.retr_q op hmemq
  constructor <;> dsimp only
  · intro x hx
    rcases List.mem_append.mp hx with h1 | h1
    · exact h.ids_lt x (List.mem_append.mpr (Or.inl (hrest x h1)))
    · rcases List.mem_cons.mp h1 with h2 | h2
      · subst h2; exact h.ids_lt x (List.mem_append.mpr (Or.inl hmemq))
      · exact h.ids_lt x (List.mem_append.mpr (Or.inr h2))
  · intro kv hkv
    rcases bump_keys kv hkv with h1 | h1
    · rw [h1]
      exact h.ids_lt op (List.mem_append.mpr (Or.inl hmemq))
    · exact h.att_keys_lt kv h1
  · exact h.dead_lt
  · exact hnd
  · intro x hx
    rcases List.mem_cons.mp hx with h1 | h1
    · subst h1
      by_cases hin : x.id ∈ s.active
      · rw [if_pos hin]; exact hin
      · rw [if_neg hin]; exact List.mem_cons_self _ _
    · have := h.run_sub x h1
      by_cases hin : op.id ∈ s.active
      · rw [if_pos hin]; exact this
      · rw [if_neg hin]; exact List.mem_cons_of_mem _ this
  · by_cases hin : op.id ∈ s.active
    · rw [if_pos hin]; exact h.cap
    · rw [if_neg hin]
      simp only [List.length_cons]
      omega
  · intro x hx
    rcases List.mem_append.mp hx with h1 | h1
    · exact h.maxR x (List.mem_append.mpr (Or.inl (hrest x h1)))
    · rcases List.mem_cons.mp h1 with h2 | h2
      · subst h2; exact h.maxR x (List.mem_append.mpr (Or.inl hmemq))
      · exact h.maxR x (List.mem_append.mpr (Or.inr h2))
  · intro x hx
    have hxne : x.id ≠ op.id := hop_fresh x (Or.inl hx)
    rw [getAttempts_bump_ne _ _ _ hxne]
    exact h.retr_q x (hrest x hx)
  · intro x hx
    rcases List.mem_cons.mp hx with h1 | h1
    · subst h1
      rw [getAttempts_bump_self, hopretr.2]
      exact ⟨hopretr.1, rfl⟩
    · have hxne : x.id ≠ op.id := hop_fresh x (Or.inr h1)
      rw [getAttempts_bump_ne _ _ _ hxne]
      exact h.retr_r x h1
  · intro id
    by_cases hid : id = op.id
    · subst hid
      rw [getAttempts_bump_self, hopretr.2]
      omega
    · rw [getAttempts_bump_ne _ _ _ hid]
      exact h.att_le id
  · intro id hid
    have hne : id ≠ op.id := fun he =>
      h.dead_gone id hid op (List.mem_append.mpr (Or.inl hmemq)) he.symm
    rw [getAttempts_bump_ne _ _ _ hne]
    exact h.dead_att id hid
  · intro id hid x hx
    rcases List.mem_append.mp hx with h1 | h1
    · exact h.dead_gone id hid x (List.mem_append.mpr (Or.inl (hrest x h1)))
    · rcases List.mem_cons.mp h1 with h2 | h2
      · subst h2; exact h.dead_gone id hid x (List.mem_append.mpr (Or.inl hmemq))
      · exact h.dead_gone id hid x (List.mem_append.mpr (Or.inr h2))

theorem invV1_step {s s' : StateV1} {a : ActV1} (h : InvV1 s)
    (hs : stepV1 s a = some s') : InvV1 s' := by
  cases a with
  | enqueue v k prio =>
      simp only [stepV1] at hs
      injection hs with hs
      subst hs
      exact invV1_enqueue h v k prio
  | start =>
      simp only [stepV1] at hs
      by_cases hlt : s.active.length < 5
      · rw [if_pos hlt] at hs
        cases hq : pickMax s.queue with
        | none => rw [hq] at hs; exact absurd hs (by simp)
        | some pr =>
            obtain ⟨op, rest⟩ := pr
            rw [hq] at hs
            simp only at hs
            injection hs with hs
            subst hs
            exact invV1_start h hq hlt _
      · rw [if_neg hlt] at hs
        exact absurd hs (by simp)
  | settle id ok =>
      simp only [stepV1] at hs
      cases hfind : s.running.find? (fun o => o.id == id) with
      | none => rw [hfind] at hs; exact absurd hs (by simp)
      | some op =>
          rw [hfind] at hs
          simp only at hs
          have hmem : op ∈ s.running := find?_op_mem hfind
          have hid : op.id = id := find?_op_id hfind
          subst hid
          cases ok with
          | true =>
              rw [if_pos rfl] at hs
              injection hs with hs
              subst hs
              exact invV1_settle_success h hmem _
          | false =>
              simp only [Bool.false_eq_true, if_false] at hs
              by_cases hr : op.retries < op.maxRetries
              · rw [if_pos hr] at hs
                injection hs with hs
                subst hs
                exact invV1_settle_retry h hmem hr
              · rw [if_neg hr] at hs
                injection hs with hs
                subst hs
                exact invV1_settle_fail h hmem hr _
  | startPass v kinds =>
      simp only [stepV1] at hs
      injection hs with hs
      subst hs
      exact invV1_startPass h v kinds _

theorem invV1_run :
    ∀ (acts : List ActV1) (s0 s : StateV1),
      InvV1 s0 → runV1 s0 acts = some s → InvV1 s := by
  intro acts
  induction acts with
  | nil =>
      intro s0 s h hr
      rw [runV1] at hr
      injection hr with hr
      subst hr
      exact h
  | cons a rest ih =>
      intro s0 s h hr
      rw [runV1] at hr
      cases hstep : stepV1 s0 a with
      | none => rw [hstep] at hr; exact absurd hr (by simp)
      | some s1 =>
          rw [hstep] at hr
          simp only at hr
          exact ih s1 s (invV1_step h hstep) hr

theorem invV1_reachable {acts : List ActV1} {s : StateV1}
    (h : runV1 initV1 acts = some s) : InvV1 s :=
  invV1_run acts initV1 s invV1_init h

/-- The running operations are bounded by the 5-slot ceiling. -/
theorem invV1_running_le {s : StateV1} (h : InvV1 s) : s.running.length ≤ 5 := by
  have hnd : ((s.queue.map Op.id) ++ (s.running.map Op.id)).Nodup := by
    have := h.nodup
    rwa [List.map_append] at this
  have hrnd : (s.running.map Op.id).Nodup := (List.nodup_append.mp hnd).2.1
  have hsub : s.running.map Op.id ⊆ s.active := by
    intro x hx
    rcases List.mem_map.mp hx with ⟨op, hop, rfl⟩
    exact h.run_sub op hop
  calc s.running.length = (s.running.map Op.id).length :=
        (List.length_map _ _).symm
    _ ≤ s.active.length := nodup_subset_length_le hrnd hsub
    _ ≤ 5 := h.cap

/-! ## Version-2 scheduler invariant -/

structure InvV2 (s : StateV2) : Prop where
  cap : s.running.length ≤ 5
  done_settled : ∀ p ∈ s.passes, p.done = true →
    ∀ id ∈ p.opIds, (s.handles.lookup id).isSome = true

theorem invV2_init : InvV2 initV2 := by
  constructor <;> simp [initV2]

theorem invV2_step {s s' : StateV2} {a : ActV2} (h : InvV2 s)
    (hs : stepV2 s a = some s') : InvV2 s' := by
  cases a with
  | enqueue v k prio =>
      simp only [stepV2] at hs
      injection hs with hs
      subst hs
      exact ⟨h.cap, h.done_settled⟩
  | start =>
      simp only [stepV2] at hs
      by_cases hlt : s.running.length < 5
      · rw [if_pos hlt] at hs
        cases hq : pickMax s.queue with
        | none => rw [hq] at hs; exact absurd hs (by simp)
        | some pr =>
            obtain ⟨op, rest⟩ := pr
            rw [hq] at hs
            simp only at hs
            injection hs with hs
            subst hs
            refine ⟨?_, h.done_settled⟩
            simp only [List.length_cons]
            omega
      · rw [if_neg hlt] at hs
        exact absurd hs (by simp)
  | settle id ok =>
      simp only [stepV2] at hs
      cases hfind : s.running.find? (fun o => o.id == id) with
      | none => rw [hfind] at hs; exact absurd hs (by simp)
      | some op =>
          rw [hfind] at hs
          simp only at hs
          have hcap' : (s.running.erase op).length ≤ 5 :=
            Nat.le_trans (List.erase_sublist _ _).length_le h.cap
          cases ok with
          | true =>
              rw [if_pos rfl] at hs
              injection hs with hs
              subst hs
              refine ⟨hcap', ?_⟩
              intro p hp hd i hi
              exact lookup_isSome_cons (h.done_settled p hp hd i hi)
          | false =>
              simp only [Bool.false_eq_true, if_false] at hs
              by_cases hr : op.retries < op.maxRetries
              · rw [if_pos hr] at hs
                injection hs with hs
                subst hs
                exact ⟨hcap', h.done_settled⟩
              · rw [if_neg hr] at hs
                injection hs with hs
                subst hs
                refine ⟨hcap', ?_⟩
                intro p hp hd i hi
                exact lookup_isSome_cons (h.done_settled p hp hd i hi)
  | startPass v kinds =>
      simp only [stepV2] at hs
      injection hs with hs
      subst hs
      refine ⟨h.cap, ?_⟩
      intro p hp hd i hi
      rcases List.mem_append.mp hp with h1 | h1
      · exact h.done_settled p h1 hd i hi
      · have he : p = { vaultId := v, opIds := (mkOps s.nextId v kinds).map Op.id
                        done := kinds.isEmpty } := by simpa using h1
        subst he
        simp only at hd hi
        have hk : kinds = [] := by
          cases kinds with
          | nil => rfl
          | cons a b => simp [List.isEmpty] at hd
        subst hk
        simp [mkOps] at hi
  | finishPass i =>
      simp only [stepV2] at hs
      cases hget : s.passes.get? i with
      | none => rw [hget] at hs; exact absurd hs (by simp)
      | some p =>
          rw [hget] at hs
          simp only at hs
          by_cases hd : p.done
          · rw [if_pos hd] at hs
            exact absurd hs (by simp)
          · rw [if_neg hd] at hs
            by_cases hall : p.opIds.all (fun id => (s.handles.lookup id).isSome) = true
            · rw [if_pos hall] at hs
              injection hs with hs
              subst hs
              refine ⟨h.cap, ?_⟩
              intro p' hp' hd' i' hi'
              rcases List.mem_or_eq_of_mem_set hp' with h1 | h1
              · exact h.done_settled p' h1 hd' i' hi'
              · subst h1
                exact List.all_eq_true.mp hall i' hi'
            · rw [if_neg hall] at hs
              exact absurd hs (by simp)

theorem invV2_run :
    ∀ (acts : List ActV2) (s0 s : StateV2),
      InvV2 s0 → runV2 s0 acts = some s → InvV2 s := by
  intro acts
  induction acts with
  | nil =>
      intro s0 s h hr
      rw [runV2] at hr
      injection hr with hr
      subst hr
      exact h
  | cons a rest ih =>
      intro s0 s h hr
      rw [runV2] at hr
      cases hstep : stepV2 s0 a with
      | none => rw [hstep] at hr; exact absurd hr (by simp)
      | some s1 =>
          rw [hstep] at hr
          simp only at hr
          exact ih s1 s (invV2_step h hstep) hr

theorem invV2_reachable {acts : List ActV2} {s : StateV2}
    (h : runV2 initV2 acts = some s) : InvV2 s :=
  invV2_run acts initV2 s invV2_init h

/-- The failure branch of `processOperation` with retries remaining:
the operation is re-enqueued with its retry count incremented and its
priority decremented (floored at 0).  Shared step-level fact about the
version-1 machine. -/
theorem stepV1_settle_retry_eq {s : StateV1} {id : Nat} {op : Op}
    (hfind : s.running.find? (fun o => o.id == id) = some op)
    (hr : op.retries < op.maxRetries) :
    stepV1 s (ActV1.settle id false) =
      some { s with running := s.running.erase op
                    queue := s.queue ++ [retriedOp op] } := by
  simp only [stepV1, hfind]
  simp only [Bool.false_eq_true, if_false]
  rw [if_pos hr]

/-! ## Claim theorems -/

/-- C1, counterexample.  The claim says `checkSync` rewrites **every**
server-reported `conflict` action into `upload`, so that the returned
action list never contains a `conflict`.  But the rewrite is guarded by
`&& localFile`: when the server reports a conflict for a path with no
matching local file, the `conflict` action passes through unchanged.
Concrete input: no local files, one server `conflict` action. -/
theorem c1_conflict_counterexample :
    (checkSyncModel []
      [{ relativePath := "notes/a.md", action := SyncAction.conflict
         serverVersion := 2, fileId := some "f1" }]).1.map PlannedAction.action
      = [SyncAction.conflict] := by rfl

/-- C1, amended.  For every response in which each `conflict` action has a
matching local file (the situation for conflicts the server reports about
files the client itself listed), `checkSync` rewrites `conflict` to
`upload` carrying the server's version and file id, so the returned
action list contains no `conflict` — and the returned conflicts list is
(unconditionally) empty. -/
theorem c1_planner_resolves_matched_conflicts
    (localFiles : List LocalFileInfo) (respActions : List FileSyncActionR)
    (hmatch : ∀ a ∈ respActions, a.action = SyncAction.conflict →
      ∃ f ∈ localFiles, f.relativePath = a.relativePath) :
    (∀ b ∈ (checkSyncModel localFiles respActions).1,
      b.action ≠ SyncAction.conflict)
    ∧ (checkSyncModel localFiles respActions).2 = [] := by
  refine ⟨?_, rfl⟩
  intro b hb
  simp only [checkSyncModel, checkSyncActions, List.mem_map] at hb
  obtain ⟨a, ha, hba⟩ := hb
  subst hba
  cases hfind : localFiles.find? (fun f => f.relativePath == a.relativePath) with
  | some lf =>
      simp only
      by_cases hc : a.action = SyncAction.conflict
      · rw [if_pos hc]
        simp
      · rw [if_neg hc]
        simpa using hc
  | none =>
      simp only
      intro hc
      rcases hmatch a ha hc with ⟨f, hf, hrel⟩
      have := List.find?_eq_none.mp hfind f hf
      simp [hrel] at this

/-- C1, witness for the amended theorem: one local file, one matching
server conflict. -/
theorem c1_witness :
    (∀ b ∈ (checkSyncModel [lfA]
        [{ relativePath := "notes/a.md", action := SyncAction.conflict
           serverVersion := 3, fileId := some "f1" }]).1,
      b.action ≠ SyncAction.conflict)
    ∧ (checkSyncModel [lfA]
        [{ relativePath := "notes/a.md", action := SyncAction.conflict
           serverVersion := 3, fileId := some "f1" }]).2 = [] :=
  c1_planner_resolves_matched_conflicts [lfA] _
    (by intro a ha hc; exact ⟨lfA, by simp [lfA], by simpa [lfA] using
      (by simpa using ha : a = _) ▸ rfl⟩)

/-- C2 (code bug).  Evaluating the version-1 machine on `c2acts` — a pass
with one upload for vault `v`, its operation starting, a second
`performBackgroundSync` for `v` with an empty plan while that operation
is still running, then the operation completing — leaves SyncProgress at
`total = 0, completed = 1`, so `completed + failed > total`, violating
the claimed invariant in exactly the overlapping-invocation scenario the
claim includes.  Moreover in the intermediate state `c2pre` the status is
already `completed` while one operation is still in flight, violating the
claimed completion condition as well. -/
theorem c2_progress_double_count :
    runV1 initV1 c2acts = some sC2
    ∧ progLookup sC2.progress "v" =
        some { total := 0, completed := 1, failed := 0, inProgress := 0
               status := "completed" }
    ∧ (∃ p, progLookup sC2.progress "v" = some p
        ∧ p.total < p.completed + p.failed)
    ∧ c2pre.running.length = 1
    ∧ (∃ p, progLookup c2pre.progress "v" = some p ∧ p.status = "completed") := by
  refine ⟨by rfl, by rfl, ⟨_, by rfl, by decide⟩, by rfl, ⟨_, by rfl, by rfl⟩⟩

/-- C3.  (1) In every reachable version-1 scheduler state at most 5
operations are simultaneously running; (2) likewise for the version-2
scheduler; (3, 4) in both versions, `queueOperation` always succeeds
immediately — it only appends the fresh operation to the queue
(start is deferred to later `start` steps, which are gated by the
5-slot ceiling) and touches neither the running set nor
`activeOperations`. -/
theorem c3_concurrency_cap :
    (∀ (acts : List ActV1) (s : StateV1),
      runV1 initV1 acts = some s → s.running.length ≤ 5)
    ∧ (∀ (acts : List ActV2) (s : StateV2),
      runV2 initV2 acts = some s → s.running.length ≤ 5)
    ∧ (∀ (s : StateV1) (v : String) (k : OpKind) (prio : Nat),
      stepV1 s (ActV1.enqueue v k prio) =
        some { s with queue := s.queue ++ [freshOp s.nextId v k prio]
                      nextId := s.nextId + 1 })
    ∧ (∀ (s : StateV2) (v : String) (k : OpKind) (prio : Nat),
      stepV2 s (ActV2.enqueue v k prio) =
        some { s with queue := s.queue ++ [freshOp s.nextId v k prio]
                      nextId := s.nextId + 1 }) :=
  ⟨fun _ _ h => invV1_running_le (invV1_reachable h),
   fun _ _ h => (invV2_reachable h).cap,
   fun _ _ _ _ => rfl,
   fun _ _ _ _ => rfl⟩

/-- C3, witness: after enqueueing seven operations and running five start
steps, exactly 5 operations are running and 2 remain queued; and the
enqueue step at the initial state succeeds immediately. -/
theorem c3_witness :
    runV1 initV1 c3acts = some sC3
    ∧ sC3.running.length ≤ 5
    ∧ sC3.running.length = 5
    ∧ sC3.queue.length = 2
    ∧ stepV1 initV1 (ActV1.enqueue "v" OpKind.upload 2) =
        some { initV1 with queue := [freshOp 0 "v" OpKind.upload 2]
                           nextId := 1 } := by
  refine ⟨by rfl, ?_, by rfl, by rfl, ?_⟩
  · exact c3_concurrency_cap.1 c3acts sC3 (by rfl)
  · exact c3_concurrency_cap.2.2.1 initV1 "v" OpKind.upload 2

/-- C4.  In every reachable version-1 scheduler state: a permanently
failed operation id was started exactly 4 times (1 initial + 3 retries)
and is in neither the queue nor the running set; no operation id is ever
started more than 4 times; a failing attempt with retries remaining
re-enqueues the operation with retry count incremented and priority
decremented by 1 floored at 0 (`retriedOp`); and a failing attempt with
retries exhausted marks the id permanently failed without re-enqueueing
it. -/
theorem c4_retry_bound (acts : List ActV1) (s : StateV1)
    (h : runV1 initV1 acts = some s) :
    (∀ id ∈ s.dead, getAttempts s.attempts id = 4
      ∧ (∀ op ∈ s.queue, op.id ≠ id) ∧ (∀ op ∈ s.running, op.id ≠ id))
    ∧ (∀ id, getAttempts s.attempts id ≤ 4)
    ∧ (∀ (id : Nat) (op : Op),
        s.running.find? (fun o => o.id == id) = some op →
        op.retries < op.maxRetries →
        stepV1 s (ActV1.settle id false) =
          some { s with running := s.running.erase op
                        queue := s.queue ++ [retriedOp op] })
    ∧ (∀ (id : Nat) (op : Op),
        s.running.find? (fun o => o.id == id) = some op →
        ¬op.retries < op.maxRetries →
        (stepV1 s (ActV1.settle id false)).isSome = true
          ∧ ∀ s', stepV1 s (ActV1.settle id false) = some s' →
              id ∈ s'.dead ∧ s'.queue = s.queue) := by
  have hI := invV1_reachable h
  refine ⟨?_, hI.att_le, ?_, ?_⟩
  · intro id hid
    refine ⟨hI.dead_att id hid, ?_, ?_⟩
    · intro op hop
      exact hI.dead_gone id hid op (List.mem_append.mpr (Or.inl hop))
    · intro op hop
      exact hI.dead_gone id hid op (List.mem_append.mpr (Or.inr hop))
  · intro id op hfind hr
    exact stepV1_settle_retry_eq hfind hr
  · intro id op hfind hr
    constructor
    · simp only [stepV1, hfind, Bool.false_eq_true, if_false]
      rw [if_neg hr]
      rfl
    · intro s' hs'
      simp only [stepV1, hfind, Bool.false_eq_true, if_false] at hs'
      rw [if_neg hr] at hs'
      injection hs' with hs'
      subst hs'
      exact ⟨List.mem_cons_self _ _, rfl⟩

/-- C4, witness: the always-failing operation of `c4acts` ends up
permanently failed with exactly 4 recorded attempts, and the queue and
running set are empty. -/
theorem c4_witness :
    runV1 initV1 c4acts = some sC4
    ∧ getAttempts sC4.attempts 0 = 4
    ∧ (∀ op ∈ sC4.queue, op.id ≠ 0)
    ∧ (∀ op ∈ sC4.running, op.id ≠ 0) := by
  have h := (c4_retry_bound c4acts sC4 (by rfl)).1 0 (by decide)
  exact ⟨by rfl, h.1, h.2.1, h.2.2⟩

/-- C5, counterexample.  The claim reads the version sent by `uploadFile`
as "the last-known-synced version plus one, the last-known-synced version
of a never-synced path defaulting to 1" — which for a never-synced path
gives `1 + 1 = 2`.  The source computes
`currentMetadata ? currentMetadata.version + 1 : 1` and sends **1** for a
never-synced path. -/
theorem c5_counterexample :
    (uploadFileModel envEcho [] lfA).uploadCalls.map (fun c => c.1.version)
        = [1]
    ∧ specLastKnownVersion [] lfA.relativePath + 1 = 2
    ∧ (uploadFileModel envEcho [] lfA).uploadCalls.map (fun c => c.1.version)
        ≠ [specLastKnownVersion [] lfA.relativePath + 1] :=
  ⟨rfl, rfl, by decide⟩

/-- C5, amended.  With a master key available and a server that accepts
the upload echoing the requested version: for a tracked path `uploadFile`
sends the recorded version plus one and afterwards records exactly that
version (one greater than before) together with the file's content hash
and the current timestamp; for a never-synced path it sends version 1 and
records version 1. -/
theorem c5_version_monotonic (env : UploadEnv) (meta : Metadata)
    (lf : LocalFileInfo) (hk : env.hasKey = true)
    (hecho : ∀ req ec, (env.server req ec).success = true
      ∧ (env.server req ec).version = req.version) :
    (∀ m, metaLookup meta lf.relativePath = some m →
      (uploadFileModel env meta lf).uploadCalls.map (fun c => c.1.version)
          = [m.version + 1]
      ∧ metaLookup (uploadFileModel env meta lf).metadataFinal lf.relativePath
          = some { version := m.version + 1, hash := lf.contentHash
                   lastSynced := env.nowIso })
    ∧ (metaLookup meta lf.relativePath = Option.none →
      (uploadFileModel env meta lf).uploadCalls.map (fun c => c.1.version)
          = [1]
      ∧ metaLookup (uploadFileModel env meta lf).metadataFinal lf.relativePath
          = some { version := 1, hash := lf.contentHash
                   lastSynced := env.nowIso }) := by
  constructor
  · intro m hm
    simp only [uploadFileModel, hk, Bool.true_eq_false, if_false, hm]
    rw [(hecho _ _).1]
    simp only [if_pos rfl]
    refine ⟨by simp, ?_⟩
    rw [(hecho _ _).2]
    exact metaLookup_insert_self _ _ _
  · intro hm
    simp only [uploadFileModel, hk, Bool.true_eq_false, if_false, hm]
    rw [(hecho _ _).1]
    simp only [if_pos rfl]
    refine ⟨by simp, ?_⟩
    rw [(hecho _ _).2]
    exact metaLookup_insert_self _ _ _

/-- C5, witness for the amended theorem: a path recorded at version 2 is
sent as version 3 and recorded at version 3; the echoing server is
`envEcho`. -/
theorem c5_witness :
    (uploadFileModel envEcho metaC5 lfA).uploadCalls.map (fun c => c.1.version)
      = [3]
    ∧ metaLookup (uploadFileModel envEcho metaC5 lfA).metadataFinal
        lfA.relativePath
      = some { version := 3, hash := lfA.contentHash
               lastSynced := envEcho.nowIso } := by
  have h := (c5_version_monotonic envEcho metaC5 lfA
    rfl (fun req ec => ⟨rfl, rfl⟩)).1 meC5 (by rfl)
  simpa [meC5] using h

/-- C6.  In every reachable version-2 scheduler state: (1) a pass whose
`allSettled` continuation has run (`done`) has every one of its enqueued
operations' handles settled — `performBackgroundSync` settles only after
every operation enqueued for the pass has settled; (2) whenever all the
handles of a not-yet-finished pass are settled — with **no** condition on
how they settled, so permanently failed operations do not block or reject
the pass — the finish step succeeds, marks the pass done, and sets the
vault's status to `completed`. -/
theorem c6_pass_completion (acts : List ActV2) (s : StateV2)
    (h : runV2 initV2 acts = some s) :
    (∀ p ∈ s.passes, p.done = true →
      ∀ id ∈ p.opIds, (s.handles.lookup id).isSome = true)
    ∧ (∀ (i : Nat) (p : Pass), s.passes.get? i = some p → p.done = false →
        (∀ id ∈ p.opIds, (s.handles.lookup id).isSome = true) →
        stepV2 s (ActV2.finishPass i) =
          some { s with passes := s.passes.set i { p with done := true }
                        progress := progSet s.progress p.vaultId
                          { getProgress s.progress p.vaultId with
                              status := "completed", inProgress := 0 } }
        ∧ progLookup (progSet s.progress p.vaultId
              { getProgress s.progress p.vaultId with
                  status := "completed", inProgress := 0 }) p.vaultId =
            some { getProgress s.progress p.vaultId with
                    status := "completed", inProgress := 0 }) := by
  refine ⟨(invV2_reachable h).done_settled, ?_⟩
  intro i p hget hd hall
  constructor
  · simp only [stepV2, hget]
    rw [if_neg (by simp [hd])]
    rw [if_pos (List.all_eq_true.mpr hall)]
  · exact alookup_aset_self _ _ _

/-- C6, witness: in `sC6`, the pass's two handles are settled — one
resolved, one rejected after retry exhaustion — and the finish step
completes the pass with status `completed` despite the failure. -/
theorem c6_witness :
    runV2 initV2 c6acts = some sC6
    ∧ sC6.passes.get? 0 = some pC6
    ∧ pC6.done = false
    ∧ sC6.handles.lookup 1 = some false
    ∧ stepV2 sC6 (ActV2.finishPass 0) =
        some { sC6 with passes := sC6.passes.set 0 { pC6 with done := true }
                        progress := progSet sC6.progress pC6.vaultId
                          { getProgress sC6.progress pC6.vaultId with
                              status := "completed", inProgress := 0 } }
    ∧ progLookup (progSet sC6.progress pC6.vaultId
          { getProgress sC6.progress pC6.vaultId with
              status := "completed", inProgress := 0 }) pC6.vaultId =
        some { getProgress sC6.progress pC6.vaultId with
                status := "completed", inProgress := 0 } := by
  have h := (c6_pass_completion c6acts sC6 (by rfl)).2 0 pC6 (by rfl) (by rfl)
    (by decide)
  exact ⟨by rfl, by rfl, by rfl, by rfl, h.1, h.2⟩

/-- C7, counterexample.  `uploadFile` with no master key fails before any
network call or metadata write (first three conjuncts) — but the claim's
"this precondition failure is not retried by the scheduler" is false: the
scheduler's failure handler does not distinguish error causes, and an
operation whose attempt failed (as an upload without a key does) is
re-enqueued with retry count 1. -/
theorem c7_counterexample :
    (uploadFileModel envNoKey [] lfA).result =
        Except.error "Encryption not available. Please log in to upload files."
    ∧ (uploadFileModel envNoKey [] lfA).uploadCalls = []
    ∧ (uploadFileModel envNoKey [] lfA).metaWrites = []
    ∧ runV1 initV1 c7acts = some sC7
    ∧ sC7.queue.map (fun o => (o.id, o.retries)) = [(0, 1)] :=
  ⟨rfl, rfl, rfl, rfl, rfl⟩

/-- C7, amended.  If no master key is available, `uploadFile` fails
immediately with the explicit "Encryption not available" error, before
any network call or metadata write (its trace is empty and the metadata
is untouched); the scheduler, however, retries this failure like any
other — a failed attempt with retries remaining is re-enqueued with
retry count incremented and priority demoted. -/
theorem c7_fail_fast_retried :
    (∀ (env : UploadEnv) (meta : Metadata) (lf : LocalFileInfo),
      env.hasKey = false →
      (uploadFileModel env meta lf).result =
          Except.error "Encryption not available. Please log in to upload files."
      ∧ (uploadFileModel env meta lf).uploadCalls = []
      ∧ (uploadFileModel env meta lf).forceUploadCalls = []
      ∧ (uploadFileModel env meta lf).metaWrites = []
      ∧ (uploadFileModel env meta lf).metadataFinal = meta)
    ∧ (∀ (s : StateV1) (id : Nat) (op : Op),
        s.running.find? (fun o => o.id == id) = some op →
        op.retries < op.maxRetries →
        stepV1 s (ActV1.settle id false) =
          some { s with running := s.running.erase op
                        queue := s.queue ++ [retriedOp op] }) := by
  constructor
  · intro env meta lf hk
    refine ⟨?_, ?_, ?_, ?_, ?_⟩ <;> simp [uploadFileModel, hk]
  · intro s id op hfind hr
    exact stepV1_settle_retry_eq hfind hr

/-- C7, witness: the no-key environment fails fast with empty traces, and
the first failing settle of `c7pre`'s running operation re-enqueues it. -/
theorem c7_witness :
    ((uploadFileModel envNoKey [] lfA).result =
        Except.error "Encryption not available. Please log in to upload files."
      ∧ (uploadFileModel envNoKey [] lfA).uploadCalls = []
      ∧ (uploadFileModel envNoKey [] lfA).forceUploadCalls = []
      ∧ (uploadFileModel envNoKey [] lfA).metaWrites = []
      ∧ (uploadFileModel envNoKey [] lfA).metadataFinal = [])
    ∧ stepV1 c7pre (ActV1.settle 0 false) =
        some { c7pre with
          running := c7pre.running.erase (freshOp 0 "v" OpKind.upload 2)
          queue := c7pre.queue ++ [retriedOp (freshOp 0 "v" OpKind.upload 2)] } := by
  constructor
  · exact c7_fail_fast_retried.1 envNoKey [] lfA rfl
  · exact c7_fail_fast_retried.2 c7pre 0 (freshOp 0 "v" OpKind.upload 2)
      (by rfl) (by decide)

/-- C8.  Whenever the download target has a local file whose current
fingerprint differs from the (non-empty) hash recorded in the sync
metadata, `downloadFile` routes through the conflict resolver's download
path: the resolver is invoked, `downloadFile` itself performs no direct
server fetch, and the note file is written with the resolver's winning
content rather than the server content. -/
theorem c8_download_conflict_routed (env : DownloadEnv) (meta : Metadata)
    (vaultPath relativePath : String) (version : Option Nat)
    (lc : String) (fm : MetaEntry)
    (hlc : env.localContent = some lc)
    (hfm : metaLookup meta relativePath = some fm)
    (hne0 : fm.hash ≠ "")
    (hneq : generateContentHash lc ≠ fm.hash) :
    (downloadFileModel env meta vaultPath relativePath version).resolverInvoked
        = true
    ∧ (downloadFileModel env meta vaultPath relativePath version).downloadCalls
        = 0
    ∧ (downloadFileModel env meta vaultPath relativePath version).noteWrites
        = [(vaultPath ++ "/" ++ relativePath, env.resolution.content)] := by
  have hcb : ((fm.hash != "") && (generateContentHash lc != fm.hash)) = true := by
    simp [bne_iff_ne, hne0, hneq]
  simp only [downloadFileModel, hlc, hfm, hcb, if_true]
  cases hsu : env.resolution.shouldUpload <;>
    cases hur : env.resolution.uploadRequest <;>
      simp [hsu, hur]

/-- C8, witness: metadata records hash `"deadbeef"`, the local file reads
`"x"` whose fingerprint is `"78"` — the download routes through the
resolver. -/
theorem c8_witness :
    (downloadFileModel dlEnvC8 metaC8 "/v" "a.md" (some 4)).resolverInvoked
        = true
    ∧ (downloadFileModel dlEnvC8 metaC8 "/v" "a.md" (some 4)).downloadCalls = 0
    ∧ (downloadFileModel dlEnvC8 metaC8 "/v" "a.md" (some 4)).noteWrites
      = [("/v" ++ "/" ++ "a.md", dlEnvC8.resolution.content)] :=
  c8_download_conflict_routed dlEnvC8 metaC8 "/v" "a.md" (some 4) "x" meC8
    rfl (by rfl) (by decide) (by decide)

/-- C9.  When the sync metadata has no entry for the download's relative
path, `downloadFile` treats the download as conflict-free regardless of
the local file's content: the conflict resolver is not invoked, the local
file is overwritten with the decrypted server content, and the metadata
records the server's version and content hash. -/
theorem c9_untracked_overwrite (env : DownloadEnv) (meta : Metadata)
    (vaultPath relativePath : String) (version : Option Nat) (lc : String)
    (hfm : metaLookup meta relativePath = Option.none)
    (hlc : env.localContent = some lc)
    (hk : env.hasKey = true) :
    (downloadFileModel env meta vaultPath relativePath version).resolverInvoked
        = false
    ∧ (downloadFileModel env meta vaultPath relativePath version).noteWrites
        = [(vaultPath ++ "/" ++ relativePath,
            env.decrypt env.serverFile.encryptedContent
              env.serverFile.encryptedFileKey)]
    ∧ metaLookup
        (downloadFileModel env meta vaultPath relativePath version).metadataFinal
        relativePath
      = some { version := env.serverFile.version
               hash := env.serverFile.contentHash
               lastSynced := env.nowIso } := by
  simp only [downloadFileModel, hlc, hfm, hk, Bool.true_eq_false, if_false,
    Bool.and_eq_true]
  refine ⟨rfl, rfl, ?_⟩
  exact metaLookup_insert_self _ _ _

/-- C9, witness: a local file exists with arbitrary content but no
metadata entry — the server content is written without consulting the
resolver. -/
theorem c9_witness :
    (downloadFileModel dlEnvC9 [] "/v" "new.md" (some 7)).resolverInvoked
        = false
    ∧ (downloadFileModel dlEnvC9 [] "/v" "new.md" (some 7)).noteWrites
        = [("/v" ++ "/" ++ "new.md",
            dlEnvC9.decrypt dlEnvC9.serverFile.encryptedContent
              dlEnvC9.serverFile.encryptedFileKey)]
    ∧ metaLookup
        (downloadFileModel dlEnvC9 [] "/v" "new.md" (some 7)).metadataFinal
        "new.md"
      = some { version := dlEnvC9.serverFile.version
               hash := dlEnvC9.serverFile.contentHash
               lastSynced := dlEnvC9.nowIso } :=
  c9_untracked_overwrite dlEnvC9 [] "/v" "new.md" (some 7) "anything at all"
    rfl rfl rfl

/-- C10.  When the server reports a version conflict on upload and the
user resolves it with `use-server`: `executeResolution` performs no
force-upload (no network write) and synthesizes a success carrying the
server's current version; `uploadFile` performs no note-file write at
all, succeeds, and records in the metadata the server's current version
paired with the hash of the unchanged local text — which, by the
`hdiff` hypothesis of the scenario, still differs from the server content
the user chose. -/
theorem c10_use_server_frame (fetch : String → Nat → FileVersionDto)
    (decrypt : String → String → String)
    (encrypt : String → String × String) (byteLen : String → Nat)
    (forceUpload : UploadRequest → String → UploadResponse)
    (server : UploadRequest → String → UploadResponse) (nowIso : String)
    (meta : Metadata) (lf : LocalFileInfo) (conf : VersionConflictInfo)
    (hserver : ∀ req ec, (server req ec).success = false
      ∧ (server req ec).conflict = some conf)
    (hch : lf.contentHash = generateContentHash lf.content)
    (hdiff : lf.content ≠
      decrypt (fetch lf.relativePath conf.currentServerVersion).encryptedContent
        (fetch lf.relativePath conf.currentServerVersion).encryptedFileKey) :
    (∀ req ec,
      (handleUploadConflictModel fetch decrypt encrypt byteLen
        ChoiceType.useServer forceUpload req ec conf).forceUploadCalls = []
      ∧ (handleUploadConflictModel fetch decrypt encrypt byteLen
          ChoiceType.useServer forceUpload req ec conf).response =
        Except.ok { fileId := "", version := conf.currentServerVersion
                    success := true, conflict := Option.none })
    ∧ (uploadFileModel (useServerEnv fetch decrypt encrypt byteLen forceUpload
        server nowIso) meta lf).forceUploadCalls = []
    ∧ (uploadFileModel (useServerEnv fetch decrypt encrypt byteLen forceUpload
        server nowIso) meta lf).noteWrites = []
    ∧ (uploadFileModel (useServerEnv fetch decrypt encrypt byteLen forceUpload
        server nowIso) meta lf).result = Except.ok ()
    ∧ metaLookup (uploadFileModel (useServerEnv fetch decrypt encrypt byteLen
        forceUpload server nowIso) meta lf).metadataFinal lf.relativePath
      = some { version := conf.currentServerVersion
               hash := generateContentHash lf.content
               lastSynced := nowIso } := by
  refine ⟨fun req ec => ⟨rfl, rfl⟩, ?_⟩
  simp only [uploadFileModel, useServerEnv, Bool.true_eq_false, if_false]
  rw [(hserver _ _).1]
  simp only [Bool.false_eq_true, if_false]
  rw [(hserver _ _).2]
  simp only [handleUploadConflictModel, executeResolutionModel, if_pos rfl]
  refine ⟨rfl, rfl, rfl, ?_⟩
  rw [← hch]
  exact metaLookup_insert_self _ _ _

/-- C10, witness: concrete collaborators in which the local text is
`"local text"`, the server content decrypts to `"server text"`, and the
server reports a conflict at current version 5. -/
theorem c10_witness :
    (∀ req ec,
      (handleUploadConflictModel fetchC10 (fun c _ => c) (fun c => (c, "fk"))
        String.length ChoiceType.useServer
        (fun _ _ => { fileId := "", version := 0, success := false
                      conflict := Option.none }) req ec
        confC10).forceUploadCalls = []
      ∧ (handleUploadConflictModel fetchC10 (fun c _ => c) (fun c => (c, "fk"))
          String.length ChoiceType.useServer
          (fun _ _ => { fileId := "", version := 0, success := false
                        conflict := Option.none }) req ec
          confC10).response =
        Except.ok { fileId := "", version := confC10.currentServerVersion
                    success := true, conflict := Option.none })
    ∧ (uploadFileModel (useServerEnv fetchC10 (fun c _ => c)
        (fun c => (c, "fk")) String.length
        (fun _ _ => { fileId := "", version := 0, success := false
                      conflict := Option.none })
        (fun _ _ => { fileId := "", version := 9, success := false
                      conflict := some confC10 }) "t3") [] lfC10).forceUploadCalls
      = []
    ∧ (uploadFileModel (useServerEnv fetchC10 (fun c _ => c)
        (fun c => (c, "fk")) String.length
        (fun _ _ => { fileId := "", version := 0, success := false
                      conflict := Option.none })
        (fun _ _ => { fileId := "", version := 9, success := false
                      conflict := some confC10 }) "t3") [] lfC10).noteWrites
      = []
    ∧ (uploadFileModel (useServerEnv fetchC10 (fun c _ => c)
        (fun c => (c, "fk")) String.length
        (fun _ _ => { fileId := "", version := 0, success := false
                      conflict := Option.none })
        (fun _ _ => { fileId := "", version := 9, success := false
                      conflict := some confC10 }) "t3") [] lfC10).result
      = Except.ok ()
    ∧ metaLookup (uploadFileModel (useServerEnv fetchC10 (fun c _ => c)
        (fun c => (c, "fk")) String.length
        (fun _ _ => { fileId := "", version := 0, success := false
                      conflict := Option.none })
        (fun _ _ => { fileId := "", version := 9, success := false
                      conflict := some confC10 }) "t3") [] lfC10).metadataFinal
        lfC10.relativePath
      = some { version := confC10.currentServerVersion
               hash := generateContentHash lfC10.content
               lastSynced := "t3" } :=
  c10_use_server_frame fetchC10 (fun c _ => c) (fun c => (c, "fk"))
    String.length
    (fun _ _ => { fileId := "", version := 0, success := false
                  conflict := Option.none })
    (fun _ _ => { fileId := "", version := 9, success := false
                  conflict := some confC10 }) "t3" [] lfC10 confC10
    (fun req ec => ⟨rfl, rfl⟩) rfl (by decide)

end InkGoose
